import Mathlib

/-
Verification development for the CodeGraphRagMcp extraction/indexing/query
pipeline.  The C++ parser (src/parser.py), the incremental indexer
(src/indexer.py) and the relevant server operations (src/server.py) are
shallowly embedded as executable Lean definitions; the theorems at the end of
the file settle the stated properties of that code.

Modelling conventions:
- a tree-sitter CST node is a `TSNode`: node type, the source text the node
  spans (abstracting `content[start_byte:end_byte]`), start/end row, and the
  list of children, each optionally tagged with its field name (tree-sitter's
  `child_by_field_name` looks up the tag; `node.children` includes every
  child, tagged or not);
- Python's mutable `current_namespace` / `current_class` fields are threaded
  as explicit arguments (push on entry / pop on exit is balanced, so the two
  presentations coincide);
- the PostgreSQL store is a `Store` value: table rows in insertion order and
  serial-id counters; SQL without ORDER BY is determinized as insertion
  order, and `LIKE '%s%'` as substring containment;
- the embedding gateway is a parameter `embed : String → Except Unit (List Int)`;
  `.error` models an encoding failure (an exception in Python);
- a transaction is modelled by computing the new store and returning the old
  one if any step inside the transaction fails.
-/

set_option linter.unusedVariables false

/-! ## Python string primitives used by the source -/

/-- Python `s.split("::")`: non-overlapping left-to-right split on the
two-character separator. -/
def splitOnColonColon : List Char → List (List Char)
  | [] => [[]]
  | ':' :: ':' :: rest => [] :: splitOnColonColon rest
  | c :: rest =>
    match splitOnColonColon rest with
    | [] => [[c]]
    | p :: ps => (c :: p) :: ps

/-- Python `s.split("::")[-1]` (the split list is never empty). -/
def lastScopeSegment (s : String) : String :=
  String.mk ((splitOnColonColon s.data).getLastD [])

/-- Python `"::".join(parts)`. -/
def joinColonColon : List String → String
  | [] => ""
  | [p] => p
  | p :: rest => p ++ "::" ++ joinColonColon rest

/-- Helper for `rsplitColonColon`: scans the reversed character list for the
first (i.e. rightmost in the original string) occurrence of `"::"`,
accumulating the already scanned suffix in original order. -/
def rsplitColonColonAux : List Char → List Char → Option (List Char × List Char)
  | acc, ':' :: ':' :: rest => some (rest.reverse, acc)
  | acc, c :: rest => rsplitColonColonAux (c :: acc) rest
  | _, [] => none

/-- Python `s.rsplit("::", 1)`: `some (before, after)` split at the rightmost
occurrence of `"::"`, `none` when `"::" not in s` (so `"::" in s` is
`(rsplitColonColon s).isSome`). -/
def rsplitColonColon (s : String) : Option (String × String) :=
  (rsplitColonColonAux [] s.data.reverse).map (fun p => (String.mk p.1, String.mk p.2))

/-- Python `s.strip()`. -/
def pyStrip (s : String) : String :=
  String.mk (((s.data.dropWhile Char.isWhitespace).reverse.dropWhile Char.isWhitespace).reverse)

/-- Python `s.strip('"<>')`. -/
def stripQuoteAngle (s : String) : String :=
  let p : Char → Bool := fun c => c == '"' || c == '<' || c == '>'
  String.mk (((s.data.dropWhile p).reverse.dropWhile p).reverse)

/-- Helper for `pySplitlines`; a trailing line terminator produces no extra
empty line, matching Python. -/
def pySplitlinesGo : List Char → List Char → List (List Char)
  | acc, [] => [acc.reverse]
  | acc, '\r' :: '\n' :: rest =>
    acc.reverse :: (match rest with | [] => [] | r => pySplitlinesGo [] r)
  | acc, '\r' :: rest =>
    acc.reverse :: (match rest with | [] => [] | r => pySplitlinesGo [] r)
  | acc, '\n' :: rest =>
    acc.reverse :: (match rest with | [] => [] | r => pySplitlinesGo [] r)
  | acc, c :: rest => pySplitlinesGo (c :: acc) rest

/-- Python `s.splitlines()` (restricted to the `\n`, `\r\n`, `\r` terminators
that occur in practice). `"" ↦ []`, `"a\n" ↦ ["a"]`, `"a\n\n" ↦ ["a", ""]`. -/
def pySplitlines (s : String) : List String :=
  match s.data with
  | [] => []
  | cs => (pySplitlinesGo [] cs).map String.mk

/-- Python `"\n".join(lines)`. -/
def joinNewline : List String → String
  | [] => ""
  | [l] => l
  | l :: rest => l ++ "\n" ++ joinNewline rest

/-- Python `s[:n]` on a string (character count). -/
def pyTake (n : Nat) (s : String) : String :=
  String.mk (s.data.take n)

/-- Python `s.startswith(pre)`. -/
def pyStartswith (s pre : String) : Bool :=
  pre.data.isPrefixOf s.data

/-! ## Tree-sitter CST model -/

/-- A tree-sitter CST node: node type, spanned source text, start row, end
row, and all children, each optionally tagged with its field name. -/
inductive TSNode : Type where
  | mk (ty : String) (text : String) (startRow : Nat) (endRow : Nat)
       (kids : List (Option String × TSNode))

def TSNode.ty : TSNode → String
  | .mk t _ _ _ _ => t

def TSNode.text : TSNode → String
  | .mk _ x _ _ _ => x

def TSNode.startRow : TSNode → Nat
  | .mk _ _ r _ _ => r

def TSNode.endRow : TSNode → Nat
  | .mk _ _ _ r _ => r

def TSNode.kids : TSNode → List (Option String × TSNode)
  | .mk _ _ _ _ ch => ch

/-- `node.children` (all children, whether field-tagged or not). -/
def TSNode.children (n : TSNode) : List TSNode :=
  n.kids.map (·.2)

/-- `node.child_by_field_name(f)`: the first child tagged with field `f`. -/
def childByField (f : String) (n : TSNode) : Option TSNode :=
  (n.kids.find? (fun p => p.1 == some f)).map (·.2)

/-! ## Parser data model (src/parser.py dataclasses) -/

/-- `Entity` dataclass (`start_byte`/`end_byte` are dropped: nothing after
extraction reads them, and byte offsets are abstracted by `TSNode.text`).
`parent_id` is always `None` at parse time and resolved by the indexer. -/
structure Entity where
  type : String
  simple_name : String
  qualified_name : String
  signature : String
  start_line : Nat
  end_line : Nat
  is_public : Bool
  parent_id : Option Nat
  complexity_score : Nat
  metadata : List (String × Bool)
deriving Repr, DecidableEq

/-- `Relationship` dataclass. -/
structure Relationship where
  from_entity : String
  to_entity : String
  relationship_type : String
  context : String
  line_number : Nat
deriving Repr, DecidableEq

/-- The `metadata` dict attached to a chunk: `{}`,
`{"truncated": True, "original_end": n}`, `{"comment_for": name}`, or
`{"fallback": True}`. -/
inductive ChunkMeta where
  | empty
  | truncated (original_end : Nat)
  | comment_for (name : String)
  | fallback
deriving Repr, DecidableEq

/-- `CodeChunk` dataclass. -/
structure CodeChunk where
  entity_name : Option String
  chunk_type : String
  content : String
  start_line : Nat
  end_line : Nat
  metadata : ChunkMeta
deriving Repr, DecidableEq

/-! ## Parser helpers (src/parser.py) -/

/-- `CppParser._build_qualified_name`, with the namespace stack and current
class passed explicitly: namespaces, then just the last `::`-segment of the
current class name, then the simple name, joined with `"::"`. -/
def build_qualified_name (ns : List String) (cls : Option String) (simple : String) : String :=
  joinColonColon (ns ++ (match cls with
    | some c => [lastScopeSegment c]
    | none => []) ++ [simple])

/-- `CppParser._get_function_name_node`. Note that for a leaf
`field_identifier` declarator (an in-class method name) the reversed-children
search finds nothing and the result is `none`. -/
def get_function_name_node (declarator : TSNode) : Option TSNode :=
  let d := if declarator.ty == "function_declarator"
    then childByField "declarator" declarator
    else some declarator
  match d with
  | none => none
  | some d2 =>
    if d2.ty == "identifier" then some d2
    else if d2.ty == "qualified_identifier" || d2.ty == "field_identifier" then
      d2.children.reverse.find? (fun c => c.ty == "identifier" || c.ty == "field_identifier")
    else if d2.ty == "destructor_name" then some d2
    else none

/-- `CppParser._extract_function_signature`. -/
def extract_function_signature (n : TSNode) : String :=
  let d := if n.ty == "function_declarator" then some n else childByField "declarator" n
  match d with
  | some dn => dn.text
  | none => ""

/-- `CppParser._extract_base_classes`. -/
def extract_base_classes (bc : TSNode) : List String :=
  bc.children.filterMap (fun c =>
    if c.ty == "type_identifier" || c.ty == "qualified_identifier"
    then some c.text else none)

/-- `CppParser._has_template_params`. -/
def has_template_params (n : TSNode) : Bool :=
  n.ty == "template_declaration"

/-- `CppParser._is_public`: ignores its argument and returns `True`. -/
def is_public (n : TSNode) : Bool :=
  true

/-- The node kinds counted by `CppParser._calculate_complexity`. -/
def controlFlowKinds : List String :=
  ["if_statement", "while_statement", "for_statement",
   "switch_statement", "case_statement", "catch_clause"]

mutual

/-- The `count_control_flow` closure inside `_calculate_complexity`: counts
control-flow nodes anywhere in the subtree, the root included. -/
def countControlFlow : TSNode → Nat
  | .mk ty _ _ _ ch =>
    (if controlFlowKinds.contains ty then 1 else 0) + countControlFlowKids ch

def countControlFlowKids : List (Option String × TSNode) → Nat
  | [] => 0
  | (_, k) :: rest => countControlFlow k + countControlFlowKids rest

end

/-- `CppParser._calculate_complexity`: base 1 plus the control-flow count of
the subtree. -/
def calculate_complexity (n : TSNode) : Nat :=
  1 + countControlFlow n

/-! ## Entity extraction (`CppParser._extract_entities`)

The Python method mutates `self.current_namespace` / `self.current_class`
around each recursive call and appends to shared lists; the pushes and pops
are balanced, so it is equivalent to this pure recursion where `ns` and `cls`
are passed down and the produced entities and relationships are returned in
append order.  `parentTy` is the node type of the tree-sitter parent
(`node.parent.type`), the only part of the parent the method reads. -/

mutual

def extract_entities (ns : List String) (cls : Option String) (parentTy : Option String) :
    TSNode → List Entity × List Relationship
  | n@(.mk ty tx sr er ch) =>
    if ty == "namespace_definition" then
      match childByField "name" n with
      | some nameNode =>
        extractBodyKids (ns ++ [nameNode.text]) cls ch
      | none => ([], [])
    else if ty == "class_specifier" || ty == "struct_specifier" then
      match childByField "name" n with
      | some nameNode =>
        let simple := nameNode.text
        let qualified := build_qualified_name ns cls simple
        let baseRels :=
          match childByField "base_clause" n with
          | some bc =>
            (extract_base_classes bc).map (fun b =>
              { from_entity := qualified, to_entity := b,
                relationship_type := "inherits",
                context := "class " ++ simple ++ " : " ++ b,
                line_number := sr + 1 })
          | none => []
        let entity : Entity :=
          { type := if ty == "class_specifier" then "class" else "struct",
            simple_name := simple, qualified_name := qualified,
            signature := (if ty == "class_specifier" then "class" else "struct") ++ " " ++ simple,
            start_line := sr + 1, end_line := er + 1,
            is_public := true, parent_id := none, complexity_score := 0,
            metadata := [("has_templates", has_template_params n)] }
        let bodyRes := extractBodyKids ns (some qualified) ch
        (entity :: bodyRes.1, baseRels ++ bodyRes.2)
      | none => ([], [])
    else if ty == "function_definition" || ty == "function_declarator" then
      let declarator := if ty == "function_declarator" then some n else childByField "declarator" n
      match declarator with
      | none => ([], [])
      | some d =>
        match get_function_name_node d with
        | none => ([], [])
        | some nameNode =>
          let simple := nameNode.text
          ([{ type := "function",
              simple_name := simple,
              qualified_name := build_qualified_name ns cls simple,
              signature := extract_function_signature n,
              start_line := sr + 1, end_line := er + 1,
              is_public := is_public n, parent_id := none,
              complexity_score := calculate_complexity n,
              metadata := [("is_definition", ty == "function_definition"),
                           ("has_templates", match parentTy with
                             | some pt => pt == "template_declaration"
                             | none => false)] }], [])
    else if ty == "enum_specifier" then
      match childByField "name" n with
      | some nameNode =>
        ([{ type := "enum",
            simple_name := nameNode.text,
            qualified_name := build_qualified_name ns cls nameNode.text,
            signature := "enum " ++ nameNode.text,
            start_line := sr + 1, end_line := er + 1,
            is_public := true, parent_id := none, complexity_score := 0,
            metadata := [] }], [])
      | none => ([], [])
    else
      extract_entities_list ns cls (some ty) ch

/-- Locate the first `body`-tagged child and process its children (the
`body = node.child_by_field_name("body"); for child in body.children` loop);
no `body` child means nothing is processed. -/
def extractBodyKids (ns : List String) (cls : Option String) :
    List (Option String × TSNode) → List Entity × List Relationship
  | [] => ([], [])
  | (tag, .mk bty btx bsr ber bkids) :: rest =>
    if tag == some "body" then extract_entities_list ns cls (some bty) bkids
    else extractBodyKids ns cls rest

def extract_entities_list (ns : List String) (cls : Option String) (parentTy : Option String) :
    List (Option String × TSNode) → List Entity × List Relationship
  | [] => ([], [])
  | (_, k) :: rest =>
    let r1 := extract_entities ns cls parentTy k
    let r2 := extract_entities_list ns cls parentTy rest
    (r1.1 ++ r2.1, r1.2 ++ r2.2)

end

/-! ## Relationship extraction (`CppParser._extract_relationships`) -/

mutual

def extract_relationships : TSNode → List Relationship
  | n@(.mk ty tx sr _ ch) =>
    let own : List Relationship :=
      if ty == "preproc_include" then
        match n.children.find? (fun c => c.ty == "string_literal" || c.ty == "system_lib_string") with
        | some pathNode =>
          let include_path := stripQuoteAngle pathNode.text
          if include_path == "" then []
          else [{ from_entity := "", to_entity := include_path,
                  relationship_type := "includes",
                  context := tx, line_number := sr + 1 }]
        | none => []
      else if ty == "call_expression" then
        match childByField "function" n with
        | some fnode =>
          [{ from_entity := "", to_entity := fnode.text,
             relationship_type := "calls",
             context := pyTake 200 tx, line_number := sr + 1 }]
        | none => []
      else []
    own ++ extract_relationships_kids ch

def extract_relationships_kids : List (Option String × TSNode) → List Relationship
  | [] => []
  | (_, k) :: rest => extract_relationships k ++ extract_relationships_kids rest

end

/-! ## Chunk creation (`CppParser._create_chunks`) -/

/-- The chunk-type decision at the top of the per-entity loop. -/
def chunkTypeFor (e : Entity) : String :=
  if e.type == "function" && (e.metadata.lookup "is_definition").getD false then "implementation"
  else if e.type == "function" then "declaration"
  else if e.type == "class" || e.type == "struct" then "declaration"
  else "mixed"

/-- The descending index list of Python's
`range(start_line - 2, max(-1, start_line - 20), -1)` (only reached when
`start_line > 1`). -/
def commentScanIndexes (start_line : Nat) : List Nat :=
  let count := min (start_line - 1) 18
  (List.range' (start_line - 1 - count) count).reverse

/-- The backward comment scan: collects preceding comment lines (in ascending
line order, matching the repeated `insert(0, ...)`), skips blank lines, stops
at the first other line. -/
def collectCommentLines (lines : List String) : List Nat → List String
  | [] => []
  | i :: rest =>
    let stripped := pyStrip (lines.getD i "")
    if pyStartswith stripped "//" || pyStartswith stripped "/*" || pyStartswith stripped "*" then
      collectCommentLines lines rest ++ [lines.getD i ""]
    else if stripped == "" then collectCommentLines lines rest
    else []

def createChunksLoop (lines : List String) : List Entity → List CodeChunk
  | [] => []
  | e :: rest =>
    let entity_lines := (lines.drop (e.start_line - 1)).take (e.end_line - (e.start_line - 1))
    let entity_code := joinNewline entity_lines
    let ctype := chunkTypeFor e
    let mainChunk : CodeChunk :=
      if entity_lines.length > 100 then
        { entity_name := some e.qualified_name, chunk_type := ctype,
          content := joinNewline (entity_lines.take 100),
          start_line := e.start_line, end_line := e.start_line + 100,
          metadata := ChunkMeta.truncated e.end_line }
      else
        { entity_name := some e.qualified_name, chunk_type := ctype,
          content := entity_code,
          start_line := e.start_line, end_line := e.end_line,
          metadata := ChunkMeta.empty }
    let commentChunks : List CodeChunk :=
      if e.start_line > 1 then
        let comment_lines := collectCommentLines lines (commentScanIndexes e.start_line)
        if comment_lines.length > 2 then
          [{ entity_name := some e.qualified_name, chunk_type := "comment_block",
             content := joinNewline comment_lines ++ "\n\n" ++ pyTake 200 entity_code,
             start_line := e.start_line - comment_lines.length,
             end_line := e.start_line,
             metadata := ChunkMeta.comment_for e.qualified_name }]
        else []
      else []
    (mainChunk :: commentChunks) ++ createChunksLoop lines rest

/-- `CppParser._create_chunks`. -/
def create_chunks (entities : List Entity) (content : String) : List CodeChunk :=
  createChunksLoop (pySplitlines content) entities

/-- `CppParser.parse_file` / `parse_cpp_file`: the entity pass (which already
appends inheritance relationships), then chunking, then the relationship pass
appending to the same relationship list. -/
def parse_file (content : String) (root : TSNode) :
    List Entity × List Relationship × List CodeChunk :=
  let er := extract_entities [] none none root
  (er.1, er.2 ++ extract_relationships root, create_chunks er.1 content)

/-! ## Graph store model (schema of src/server.py `initialize_database`)

Rows are kept in insertion order; `id` columns are modelled with per-table
serial counters.  Foreign keys carry `ON DELETE CASCADE`, which
`deleteFileEntities` reproduces for the per-file entity delete. -/

structure StoredEntity where
  id : Nat
  file_id : Nat
  type : String
  qualified_name : String
  simple_name : String
  signature : String
  start_line : Nat
  end_line : Nat
  complexity_score : Nat
  is_public : Bool
  parent_id : Option Nat
  metadata : List (String × Bool)
deriving Repr, DecidableEq

structure StoredRelationship where
  id : Nat
  from_entity_id : Nat
  to_entity_id : Nat
  relationship_type : String
  context : String
  line_number : Nat
deriving Repr, DecidableEq

structure StoredChunk where
  id : Nat
  entity_id : Option Nat
  file_id : Nat
  chunk_type : String
  content : String
  start_line : Nat
  end_line : Nat
  embedding : List Int
  metadata : ChunkMeta
deriving Repr, DecidableEq

structure StoredFile where
  id : Nat
  path : String
  content_hash : String
  status : String
deriving Repr, DecidableEq

structure Store where
  files : List StoredFile
  entities : List StoredEntity
  relationships : List StoredRelationship
  chunks : List StoredChunk
  nextEntityId : Nat
  nextRelationshipId : Nat
  nextChunkId : Nat
deriving Repr, DecidableEq

def emptyStore : Store :=
  { files := [], entities := [], relationships := [], chunks := [],
    nextEntityId := 1, nextRelationshipId := 1, nextChunkId := 1 }

/-- Python dict lookup on the `qualified_name -> id` maps (`entity_map`,
`self.entity_cache`); insertion conses in front, so the first hit is the most
recent binding, matching dict overwrite. -/
def lookupName (m : List (String × Nat)) (k : String) : Option Nat :=
  (m.find? (fun p => p.1 == k)).map (·.2)

/-- Python truthiness of an optional integer id (`if from_id and to_id`):
`None` and `0` are falsy. -/
def pyTruthy : Option Nat → Bool
  | none => false
  | some n => n != 0

/-! ## Incremental indexer (src/indexer.py `CodeIndexer`) -/

/-- `DELETE FROM entities WHERE file_id = $1` with the schema's cascades:
relationships referencing a deleted entity on either side and chunks whose
`entity_id` references a deleted entity go too; chunks with a NULL
`entity_id` are only tied to the file row and survive. -/
def deleteFileEntities (st : Store) (fid : Nat) : Store :=
  let dead := (st.entities.filter (fun e => e.file_id == fid)).map (·.id)
  { st with
    entities := st.entities.filter (fun e => !(e.file_id == fid)),
    relationships := st.relationships.filter (fun r =>
      !(dead.contains r.from_entity_id) && !(dead.contains r.to_entity_id)),
    chunks := st.chunks.filter (fun c =>
      match c.entity_id with
      | some eid => !(dead.contains eid)
      | none => true) }

/-- `CodeIndexer._insert_entity`: INSERT ... RETURNING id. -/
def insert_entity (st : Store) (fid : Nat) (e : Entity) : Store × Nat :=
  let eid := st.nextEntityId
  ({ st with
     entities := st.entities ++ [{
       id := eid, file_id := fid, type := e.type,
       qualified_name := e.qualified_name, simple_name := e.simple_name,
       signature := e.signature, start_line := e.start_line,
       end_line := e.end_line, complexity_score := e.complexity_score,
       is_public := e.is_public, parent_id := none, metadata := e.metadata }],
     nextEntityId := eid + 1 }, eid)

/-- The entity-insertion loop of `index_file`: builds the file-scoped
`entity_map` and also updates the run-wide `self.entity_cache`. -/
def insertEntitiesLoop (st : Store) (fid : Nat)
    (entity_map cache : List (String × Nat)) :
    List Entity → Store × List (String × Nat) × List (String × Nat)
  | [] => (st, entity_map, cache)
  | e :: rest =>
    let r := insert_entity st fid e
    insertEntitiesLoop r.1 fid ((e.qualified_name, r.2) :: entity_map)
      ((e.qualified_name, r.2) :: cache) rest

/-- `UPDATE entities SET parent_id = $1 WHERE id = $2`. -/
def setParent (entities : List StoredEntity) (eid pid : Nat) : List StoredEntity :=
  entities.map (fun e => if e.id == eid then { e with parent_id := some pid } else e)

/-- The parent-resolution loop of `index_file`: for each entity whose
qualified name contains `"::"`, strip the last scope segment and look the
prefix up in the file-scoped map. -/
def resolveParentsLoop (st : Store) (entity_map : List (String × Nat)) :
    List Entity → Store
  | [] => st
  | e :: rest =>
    let st1 :=
      match rsplitColonColon e.qualified_name with
      | none => st
      | some (parent_name, _) =>
        match lookupName entity_map parent_name, lookupName entity_map e.qualified_name with
        | some pid, some eid => { st with entities := setParent st.entities eid pid }
        | _, _ => st
    resolveParentsLoop st1 entity_map rest

/-- `CodeIndexer._insert_relationship`: resolve `from` against the file map
then the run cache; drop include edges; resolve `to` against the map, the
cache, then a last-resort `SELECT id FROM entities WHERE simple_name = $1
LIMIT 1`; insert only when both resolved ids are truthy. -/
def insert_relationship (st : Store) (rel : Relationship)
    (entity_map cache : List (String × Nat)) : Store :=
  let from_id : Option Nat :=
    match lookupName entity_map rel.from_entity with
    | some i => some i
    | none => lookupName cache rel.from_entity
  if rel.relationship_type == "includes" then st
  else
    let to_id : Option Nat :=
      match lookupName entity_map rel.to_entity with
      | some i => some i
      | none =>
        match lookupName cache rel.to_entity with
        | some i => some i
        | none =>
          (st.entities.find? (fun e => e.simple_name == lastScopeSegment rel.to_entity)).map (·.id)
    if pyTruthy from_id && pyTruthy to_id then
      { st with
        relationships := st.relationships ++ [{
          id := st.nextRelationshipId,
          from_entity_id := from_id.getD 0, to_entity_id := to_id.getD 0,
          relationship_type := rel.relationship_type,
          context := rel.context, line_number := rel.line_number }],
        nextRelationshipId := st.nextRelationshipId + 1 }
    else st

def insertRelationshipsLoop (st : Store) (entity_map cache : List (String × Nat)) :
    List Relationship → Store
  | [] => st
  | r :: rest => insertRelationshipsLoop (insert_relationship st r entity_map cache) entity_map cache rest

/-- `CodeIndexer._insert_chunk`: embed the content (an embedding failure is
an exception), resolve the entity link against the file-scoped map only
(an empty `entity_name` string is falsy and yields no link), insert. -/
def insert_chunk (embed : String → Except Unit (List Int)) (st : Store)
    (c : CodeChunk) (entity_map : List (String × Nat)) (fid : Nat) :
    Except Unit Store :=
  match embed c.content with
  | .error e => .error e
  | .ok v =>
    let entity_id :=
      match c.entity_name with
      | some nm => if nm == "" then none else lookupName entity_map nm
      | none => none
    .ok { st with
      chunks := st.chunks ++ [{
        id := st.nextChunkId, entity_id := entity_id, file_id := fid,
        chunk_type := c.chunk_type, content := c.content,
        start_line := c.start_line, end_line := c.end_line,
        embedding := v, metadata := c.metadata }],
      nextChunkId := st.nextChunkId + 1 }

def insertChunksLoop (embed : String → Except Unit (List Int)) (st : Store)
    (entity_map : List (String × Nat)) (fid : Nat) :
    List CodeChunk → Except Unit Store
  | [] => .ok st
  | c :: rest =>
    match insert_chunk embed st c entity_map fid with
    | .error e => .error e
    | .ok st1 => insertChunksLoop embed st1 entity_map fid rest

/-- `UPDATE files SET status = 'indexed', last_indexed = now() WHERE id = $1`
(the timestamp is not modelled). -/
def updateFileStatus (st : Store) (fid : Nat) : Store :=
  { st with files := st.files.map (fun f =>
      if f.id == fid then { f with status := "indexed" } else f) }

/-- Python `range(0, numLines, 100 - 20)` in `_simple_file_indexing`. -/
def fallbackWindowIndexes (numLines : Nat) : List Nat :=
  List.range' 0 ((numLines + 79) / 80) 80

/-- The insertion loop of `_simple_file_indexing`: windows of up to 100
lines, skipping windows whose stripped text is under 50 characters.  Each
insert runs outside any transaction, so an embedding failure (exception)
keeps every chunk already inserted. -/
def simpleChunkInsertLoop (embed : String → Except Unit (List Int))
    (fid : Nat) (lines : List String) (st : Store) : List Nat → Store
  | [] => st
  | i :: rest =>
    let chunk_lines := (lines.drop i).take 100
    let chunk_text := joinNewline chunk_lines
    if (pyStrip chunk_text).data.length < 50 then
      simpleChunkInsertLoop embed fid lines st rest
    else
      match embed chunk_text with
      | .error _ => st
      | .ok v =>
        simpleChunkInsertLoop embed fid lines
          { st with
            chunks := st.chunks ++ [{
              id := st.nextChunkId, entity_id := none, file_id := fid,
              chunk_type := "mixed", content := chunk_text,
              start_line := i + 1, end_line := i + chunk_lines.length,
              embedding := v, metadata := ChunkMeta.fallback }],
            nextChunkId := st.nextChunkId + 1 } rest

/-- `CodeIndexer._simple_file_indexing`: note there is no transaction and no
delete of prior rows. -/
def simple_file_indexing (embed : String → Except Unit (List Int))
    (fid : Nat) (content : String) (st : Store) : Store :=
  let lines := pySplitlines content
  simpleChunkInsertLoop embed fid lines st (fallbackWindowIndexes lines.length)

/-- `CodeIndexer.index_file`.  `parsed` is the outcome of
`parse_cpp_file(file_path, content)` (`.error` = the caught parse exception).
On the parse-success path the whole replace runs inside one transaction:
if any chunk embedding fails the store reverts to `st`, while the run-wide
cache keeps the mutations made inside the transaction.  On the parse-failure
path `_simple_file_indexing` runs non-transactionally.  Returns the new
store and the new run-wide cache. -/
def index_file (embed : String → Except Unit (List Int))
    (parsed : Except Unit (List Entity × List Relationship × List CodeChunk))
    (fid : Nat) (content : String) (st : Store) (cache : List (String × Nat)) :
    Store × List (String × Nat) :=
  match parsed with
  | .error _ => (simple_file_indexing embed fid content st, cache)
  | .ok (es, rs, cs) =>
    let st1 := deleteFileEntities st fid
    let r := insertEntitiesLoop st1 fid [] cache es
    let st3 := resolveParentsLoop r.1 r.2.1 es
    let st4 := insertRelationshipsLoop st3 r.2.1 r.2.2 rs
    match insertChunksLoop embed st4 r.2.1 fid cs with
    | .error _ => (st, r.2.2)
    | .ok st5 => (updateFileStatus st5 fid, r.2.2)

/-! ## Change detection (src/server.py `check_for_changes`) -/

/-- The per-file decision inside `check_for_changes`: a file is appended to
`changed_files` iff it has no row yet or the stored hash differs. -/
def fileChanged (st : Store) (path hash : String) : Bool :=
  match st.files.find? (fun f => f.path == path) with
  | none => true
  | some row => row.content_hash != hash

/-- `check_for_changes` over the discovered `(path, content_hash)` pairs:
exactly the changed files are handed to `index_files` for re-indexing. -/
def check_for_changes (st : Store) (found : List (String × String)) : List String :=
  (found.filter (fun pc => fileChanged st pc.1 pc.2)).map (·.1)

/-! ## Symbol lookup (src/server.py `find_symbol`) -/

structure SymbolUsage where
  caller : String
  caller_type : String
  file : String
  line : Nat
  relationship : String
  context : String
deriving Repr, DecidableEq

structure SymbolResult where
  symbol : String
  type : String
  signature : String
  file : String
  code : Option String
  usages : List SymbolUsage
  other_matches : List (String × String)
deriving Repr, DecidableEq

/-- Substring containment on character lists. -/
def charsContain (s pat : List Char) : Bool :=
  pat.isPrefixOf s ||
    (match s with
     | [] => false
     | _ :: t => charsContain t pat)

/-- `qualified_name LIKE '%symbol%'` for a symbol without wildcard
characters: substring containment. -/
def likeContains (qualified symbol : String) : Bool :=
  charsContain qualified.data symbol.data

/-- The candidate query of `find_symbol`:
`WHERE e.qualified_name LIKE $1 OR e.simple_name = $2 LIMIT 10` joined with
`files`; no ORDER BY, so the rows come back in insertion order. -/
def findSymbolCandidates (st : Store) (symbol : String) : List StoredEntity :=
  (st.entities.filter (fun e =>
    (st.files.any (fun f => f.id == e.file_id)) &&
    (likeContains e.qualified_name symbol || e.simple_name == symbol))).take 10

/-- `ORDER BY f.path, r.line_number` on the usage rows. -/
def usageLE (a b : SymbolUsage) : Prop :=
  a.file < b.file ∨ (a.file = b.file ∧ a.line ≤ b.line)

instance : DecidableRel usageLE := fun a b => by
  unfold usageLE
  infer_instance

/-- `ORDER BY start_line` on the chunk rows. -/
def chunkStartLE (a b : StoredChunk) : Prop :=
  a.start_line ≤ b.start_line

instance : DecidableRel chunkStartLE := fun a b => by
  unfold chunkStartLE
  infer_instance

/-- `find_symbol(symbol, include_usages, max_usages)`: first candidate in
insertion order is the primary match; its code is the first chunk by
`start_line`; usages are the incoming relationship edges joined with their
caller entity and file, sorted by file path then line number, limited to
`max_usages`; the remaining candidates are surfaced as `other_matches`.
`none` models the `{"error": ...}` result. -/
def find_symbol (st : Store) (symbol : String) (include_usages : Bool)
    (max_usages : Nat) : Option SymbolResult :=
  match findSymbolCandidates st symbol with
  | [] => none
  | e :: restMatches =>
    let filePathOf : Nat → String := fun fidv =>
      ((st.files.find? (fun f => f.id == fidv)).map (·.path)).getD ""
    let code :=
      ((st.chunks.filter (fun c => c.entity_id == some e.id)).insertionSort
        chunkStartLE).head?.map (·.content)
    let usages :=
      if include_usages then
        (((st.relationships.filter (fun r => r.to_entity_id == e.id)).filterMap
          (fun r =>
            match st.entities.find? (fun e2 => e2.id == r.from_entity_id) with
            | none => none
            | some caller =>
              match st.files.find? (fun f => f.id == caller.file_id) with
              | none => none
              | some f =>
                some { caller := caller.qualified_name,
                       caller_type := caller.type, file := f.path,
                       line := r.line_number,
                       relationship := r.relationship_type,
                       context := r.context })).insertionSort usageLE).take max_usages
      else []
    some { symbol := e.qualified_name, type := e.type,
           signature := e.signature, file := filePathOf e.file_id,
           code := code, usages := usages,
           other_matches := restMatches.map (fun m => (m.qualified_name, filePathOf m.file_id)) }

/-! ## Induction infrastructure for the CST -/

mutual

def sizeN : TSNode → Nat
  | .mk _ _ _ _ ch => 1 + sizeL ch

def sizeL : List (Option String × TSNode) → Nat
  | [] => 0
  | (_, n) :: rest => 1 + sizeN n + sizeL rest

end

/-! ## Claim-side (specification) definitions

These definitions follow the wording of the specification, to be compared
with the code-side definitions above. -/

mutual

/-- All nodes of a subtree, root first (specification side, for the
complexity claim: "control-flow nodes anywhere in the entity's subtree"). -/
def flattenNode : TSNode → List TSNode
  | n@(.mk _ _ _ _ ch) => n :: flattenKids ch

def flattenKids : List (Option String × TSNode) → List TSNode
  | [] => []
  | (_, k) :: rest => flattenNode k ++ flattenKids rest

end

/-- A string with no colon character (a plain identifier token, as produced
by the tree-sitter grammar for type and namespace identifiers). -/
def colonFree (s : String) : Bool :=
  s.data.all (fun c => !(c == ':'))

mutual

/-- No namespace/class/struct definition anywhere in the subtree. -/
def scopeFree : TSNode → Bool
  | .mk ty _ _ _ ch =>
    !(ty == "namespace_definition" || ty == "class_specifier" || ty == "struct_specifier")
      && scopeFreeKids ch

def scopeFreeKids : List (Option String × TSNode) → Bool
  | [] => true
  | (_, k) :: rest => scopeFree k && scopeFreeKids rest

end

mutual

/-- Every class/struct body in the subtree is free of nested
namespace/class/struct definitions. -/
def nestOk : TSNode → Bool
  | n@(.mk ty _ _ _ ch) =>
    (if ty == "class_specifier" || ty == "struct_specifier" then
      match childByField "body" n with
      | some b => scopeFree b
      | none => true
     else true) && nestOkKids ch

def nestOkKids : List (Option String × TSNode) → Bool
  | [] => true
  | (_, k) :: rest => nestOk k && nestOkKids rest

end

mutual

/-- Every namespace/class/struct name token in the subtree is colon-free. -/
def namesOk : TSNode → Bool
  | n@(.mk ty _ _ _ ch) =>
    (if ty == "namespace_definition" || ty == "class_specifier" || ty == "struct_specifier" then
      match childByField "name" n with
      | some nm => colonFree nm.text
      | none => true
     else true) && namesOkKids ch

def namesOkKids : List (Option String × TSNode) → Bool
  | [] => true
  | (_, k) :: rest => namesOk k && namesOkKids rest

end

mutual

/-- Specification-side mirror of the entity traversal that assigns every
entity its full lexical nesting path: `path` is the list of enclosing
namespace/class/struct names, and an entity's qualified name is claimed to be
`path` plus its simple name joined with `"::"`.  The branching (which nodes
yield entities) mirrors `extract_entities`; only the name computation
follows the specification's words. -/
def lexNames (path : List String) : TSNode → List String
  | n@(.mk ty tx sr er ch) =>
    if ty == "namespace_definition" then
      match childByField "name" n with
      | some nameNode => lexBodyKids (path ++ [nameNode.text]) ch
      | none => []
    else if ty == "class_specifier" || ty == "struct_specifier" then
      match childByField "name" n with
      | some nameNode =>
        joinColonColon (path ++ [nameNode.text]) :: lexBodyKids (path ++ [nameNode.text]) ch
      | none => []
    else if ty == "function_definition" || ty == "function_declarator" then
      match (if ty == "function_declarator" then some n else childByField "declarator" n) with
      | none => []
      | some d =>
        match get_function_name_node d with
        | none => []
        | some nameNode => [joinColonColon (path ++ [nameNode.text])]
    else if ty == "enum_specifier" then
      match childByField "name" n with
      | some nameNode => [joinColonColon (path ++ [nameNode.text])]
      | none => []
    else
      lexKids path ch

def lexBodyKids (path : List String) : List (Option String × TSNode) → List String
  | [] => []
  | (tag, .mk bty btx bsr ber bkids) :: rest =>
    if tag == some "body" then lexKids path bkids
    else lexBodyKids path rest

def lexKids (path : List String) : List (Option String × TSNode) → List String
  | [] => []
  | (_, k) :: rest => lexNames path k ++ lexKids path rest

end

/-- The fallback windows the specification describes: 100-line windows
starting every 80 lines (20-line overlap), skipping windows whose stripped
text is under 50 characters. -/
def fallbackWindows (content : String) : List (Nat × List String) :=
  let lines := pySplitlines content
  (fallbackWindowIndexes lines.length).filterMap (fun i =>
    let w := (lines.drop i).take 100
    if (pyStrip (joinNewline w)).data.length < 50 then none else some (i, w))

/-- A stored chunk without its serial id and embedding vector. -/
structure ChunkData where
  entity_id : Option Nat
  file_id : Nat
  chunk_type : String
  content : String
  start_line : Nat
  end_line : Nat
  metadata : ChunkMeta
deriving Repr, DecidableEq

def chunkData (c : StoredChunk) : ChunkData :=
  { entity_id := c.entity_id, file_id := c.file_id, chunk_type := c.chunk_type,
    content := c.content, start_line := c.start_line, end_line := c.end_line,
    metadata := c.metadata }

/-- The chunk data a fallback window should produce. -/
def fallbackChunkData (fid : Nat) (iw : Nat × List String) : ChunkData :=
  { entity_id := none, file_id := fid, chunk_type := "mixed",
    content := joinNewline iw.2, start_line := iw.1 + 1,
    end_line := iw.1 + iw.2.length, metadata := ChunkMeta.fallback }

/-- A stored entity without its serial id and parent link. -/
structure EntityData where
  file_id : Nat
  type : String
  qualified_name : String
  simple_name : String
  signature : String
  start_line : Nat
  end_line : Nat
  complexity_score : Nat
  is_public : Bool
  metadata : List (String × Bool)
deriving Repr, DecidableEq

def entityData (e : StoredEntity) : EntityData :=
  { file_id := e.file_id, type := e.type, qualified_name := e.qualified_name,
    simple_name := e.simple_name, signature := e.signature,
    start_line := e.start_line, end_line := e.end_line,
    complexity_score := e.complexity_score, is_public := e.is_public,
    metadata := e.metadata }

/-- The stored data a parsed entity should produce for a file. -/
def parsedEntityData (fid : Nat) (e : Entity) : EntityData :=
  { file_id := fid, type := e.type, qualified_name := e.qualified_name,
    simple_name := e.simple_name, signature := e.signature,
    start_line := e.start_line, end_line := e.end_line,
    complexity_score := e.complexity_score, is_public := e.is_public,
    metadata := e.metadata }

/-- Every persisted relationship references an existing entity on both
sides. -/
def relEndpointsExist (st : Store) : Prop :=
  ∀ r ∈ st.relationships,
    (∃ e ∈ st.entities, e.id = r.from_entity_id) ∧
    (∃ e ∈ st.entities, e.id = r.to_entity_id)

/-! ## Id-insensitive view of a file's stored data (for the idempotence
claim: "identical up to ids") -/

/-- The qualified name of the entity with a given id. -/
def entityName (st : Store) (eid : Nat) : Option String :=
  (st.entities.find? (fun e => e.id == eid)).map (·.qualified_name)

structure EntityView where
  data : EntityData
  parent : Option String
deriving Repr, DecidableEq

def entityView (st : Store) (e : StoredEntity) : EntityView :=
  { data := entityData e, parent := e.parent_id.bind (entityName st) }

structure RelationshipView where
  from_name : String
  to_name : String
  relationship_type : String
  context : String
  line_number : Nat
deriving Repr, DecidableEq

def relView (st : Store) (r : StoredRelationship) : Option RelationshipView :=
  match entityName st r.from_entity_id, entityName st r.to_entity_id with
  | some a, some b =>
    some { from_name := a, to_name := b,
           relationship_type := r.relationship_type,
           context := r.context, line_number := r.line_number }
  | _, _ => none

structure ChunkView where
  entity : Option String
  chunk_type : String
  content : String
  start_line : Nat
  end_line : Nat
  embedding : List Int
  metadata : ChunkMeta
deriving Repr, DecidableEq

def chunkView (st : Store) (c : StoredChunk) : ChunkView :=
  { entity := c.entity_id.bind (entityName st), chunk_type := c.chunk_type,
    content := c.content, start_line := c.start_line, end_line := c.end_line,
    embedding := c.embedding, metadata := c.metadata }

/-- The id-insensitive entity/relationship/chunk set stored for one file. -/
def storeView (st : Store) (fid : Nat) :
    List EntityView × List (Option RelationshipView) × List ChunkView :=
  ((st.entities.filter (fun e => e.file_id == fid)).map (entityView st),
   st.relationships.map (relView st),
   (st.chunks.filter (fun c => c.file_id == fid)).map (chunkView st))

/-! ## Id shifting (runs of the indexer from stores that differ only in
their serial counters produce id-shifted results) -/

def shiftEntity (d : Nat) (e : StoredEntity) : StoredEntity :=
  { e with id := e.id + d, parent_id := e.parent_id.map (· + d) }

def shiftRel (de dr : Nat) (r : StoredRelationship) : StoredRelationship :=
  { r with
    id := r.id + dr,
    from_entity_id := r.from_entity_id + de,
    to_entity_id := r.to_entity_id + de }

def shiftChunk (de dc : Nat) (c : StoredChunk) : StoredChunk :=
  { c with id := c.id + dc, entity_id := c.entity_id.map (· + de) }

def shiftStore (de dr dc : Nat) (st : Store) : Store :=
  { files := st.files,
    entities := st.entities.map (shiftEntity de),
    relationships := st.relationships.map (shiftRel de dr),
    chunks := st.chunks.map (shiftChunk de dc),
    nextEntityId := st.nextEntityId + de,
    nextRelationshipId := st.nextRelationshipId + dr,
    nextChunkId := st.nextChunkId + dc }

def shiftMap (d : Nat) (m : List (String × Nat)) : List (String × Nat) :=
  m.map (fun p => (p.1, p.2 + d))

/-- Two stores whose entity/relationship/chunk rows agree up to uniform id
shifts (files are unconstrained: the id-insensitive view ignores them). -/
def shiftedData (de dr dc : Nat) (st st2 : Store) : Prop :=
  st2.entities = st.entities.map (shiftEntity de) ∧
  st2.relationships = st.relationships.map (shiftRel de dr) ∧
  st2.chunks = st.chunks.map (shiftChunk de dc) ∧
  st2.nextEntityId = st.nextEntityId + de ∧
  st2.nextRelationshipId = st.nextRelationshipId + dr ∧
  st2.nextChunkId = st.nextChunkId + dc

/-! ## Symbol-lookup ranking (specification side) -/

/-- The candidate filter of `find_symbol`'s SQL query. -/
def symbolPred (st : Store) (symbol : String) (e : StoredEntity) : Bool :=
  (st.files.any (fun f => f.id == e.file_id)) &&
    (likeContains e.qualified_name symbol || e.simple_name == symbol)

/-- The ranking the specification claims: qualified-name containment first,
simple-name equality second. -/
def rankScore (symbol : String) (e : StoredEntity) : Nat :=
  (if likeContains e.qualified_name symbol then 2 else 0) +
    (if e.simple_name == symbol then 1 else 0)

def rankGE (symbol : String) (a b : StoredEntity) : Prop :=
  rankScore symbol b ≤ rankScore symbol a

instance : DecidableRel (rankGE symbol) := fun a b => by
  unfold rankGE
  infer_instance

/-- The primary match the specification describes: the best-ranked
candidate. -/
def specPrimary (st : Store) (symbol : String) : Option String :=
  (((st.entities.filter (symbolPred st symbol)).insertionSort (rankGE symbol)).head?).map
    (·.qualified_name)

/-- The primary match the code computes: the first candidate in insertion
order. -/
def codePrimary (st : Store) (symbol : String) : Option String :=
  (find_symbol st symbol false 0).map (·.symbol)

/-! ## Concrete inputs for counterexamples and witnesses -/

/-- The tree-sitter CST of `namespace A { class B { void c() {} } }` (the
specification's worked example). -/
def egTree : TSNode :=
  .mk "translation_unit" "namespace A \x7b class B \x7b void c() \x7b\x7d \x7d; \x7d" 0 0
    [(none, .mk "namespace_definition" "namespace A \x7b class B \x7b void c() \x7b\x7d \x7d; \x7d" 0 0
      [(none, .mk "namespace" "namespace" 0 0 []),
       (some "name", .mk "namespace_identifier" "A" 0 0 []),
       (some "body", .mk "declaration_list" "\x7b class B \x7b void c() \x7b\x7d \x7d; \x7d" 0 0
         [(none, .mk "\x7b" "\x7b" 0 0 []),
          (none, .mk "class_specifier" "class B \x7b void c() \x7b\x7d \x7d" 0 0
            [(none, .mk "class" "class" 0 0 []),
             (some "name", .mk "type_identifier" "B" 0 0 []),
             (some "body", .mk "field_declaration_list" "\x7b void c() \x7b\x7d \x7d" 0 0
               [(none, .mk "\x7b" "\x7b" 0 0 []),
                (none, .mk "function_definition" "void c() \x7b\x7d" 0 0
                  [(some "type", .mk "primitive_type" "void" 0 0 []),
                   (some "declarator", .mk "function_declarator" "c()" 0 0
                     [(some "declarator", .mk "field_identifier" "c" 0 0 []),
                      (some "parameters", .mk "parameter_list" "()" 0 0
                        [(none, .mk "(" "(" 0 0 []), (none, .mk ")" ")" 0 0 [])])]),
                   (some "body", .mk "compound_statement" "\x7b\x7d" 0 0
                     [(none, .mk "\x7b" "\x7b" 0 0 []), (none, .mk "\x7d" "\x7d" 0 0 [])])]),
                (none, .mk "\x7d" "\x7d" 0 0 [])])]),
          (none, .mk ";" ";" 0 0 []),
          (none, .mk "\x7d" "\x7d" 0 0 [])])])]

def egContent : String := "namespace A \x7b class B \x7b void c() \x7b\x7d \x7d; \x7d"

/-- A total embedding gateway. -/
def embed1 : String → Except Unit (List Int) := fun _ => .ok [1]

/-- The CST of `class A2 { class B2 { class C2 {}; }; };` (triply nested
classes). -/
def nestTree : TSNode :=
  .mk "translation_unit" "" 0 0
    [(none, .mk "class_specifier" "" 0 0
      [(none, .mk "class" "class" 0 0 []),
       (some "name", .mk "type_identifier" "A2" 0 0 []),
       (some "body", .mk "field_declaration_list" "" 0 0
         [(none, .mk "field_declaration" "" 0 0
           [(some "type", .mk "class_specifier" "" 0 0
             [(some "name", .mk "type_identifier" "B2" 0 0 []),
              (some "body", .mk "field_declaration_list" "" 0 0
                [(none, .mk "field_declaration" "" 0 0
                  [(some "type", .mk "class_specifier" "" 0 0
                    [(some "name", .mk "type_identifier" "C2" 0 0 []),
                     (some "body", .mk "field_declaration_list" "" 0 0 [])])])])])])])])]

/-- The CST of a named enum (an entity whose complexity score is 0). -/
def enumTree : TSNode :=
  .mk "translation_unit" "enum E \x7b \x7d;" 0 0
    [(none, .mk "enum_specifier" "enum E \x7b \x7d" 0 0
      [(none, .mk "enum" "enum" 0 0 []),
       (some "name", .mk "type_identifier" "E" 0 0 []),
       (some "body", .mk "enumerator_list" "\x7b \x7d" 0 0 [])])]

/-- A single line of content long enough (≥ 50 stripped characters) that the
fallback chunking produces one window. -/
def longLine : String := "int aaaaaaaaaaaaaaaaaaaaaaaaaaaaaaaaaaaaaaaaaaaaaaaaaaaa = 3;"

/-- A store that already holds data for file 7: one entity, one
entity-linked chunk and one entity-less (fallback) chunk. -/
def priorStore : Store :=
  { files := [{ id := 7, path := "a.cpp", content_hash := "h0", status := "indexed" }],
    entities := [{
      id := 1, file_id := 7, type := "function",
      qualified_name := "old", simple_name := "old", signature := "old()",
      start_line := 1, end_line := 1, complexity_score := 1, is_public := true,
      parent_id := none, metadata := [] }],
    relationships := [],
    chunks := [
      { id := 1, entity_id := some 1, file_id := 7, chunk_type := "implementation",
        content := "old body", start_line := 1, end_line := 1,
        embedding := [1], metadata := ChunkMeta.empty },
      { id := 2, entity_id := none, file_id := 7, chunk_type := "mixed",
        content := "old fallback", start_line := 1, end_line := 1,
        embedding := [1], metadata := ChunkMeta.fallback }],
    nextEntityId := 2, nextRelationshipId := 1, nextChunkId := 3 }

/-- A store with two entities whose insertion order is the opposite of the
specification's ranking for the symbol `"B"`. -/
def symStore : Store :=
  { files := [{ id := 1, path := "f.cpp", content_hash := "h", status := "indexed" }],
    entities := [
      { id := 1, file_id := 1, type := "function", qualified_name := "A::B::c",
        simple_name := "c", signature := "c()", start_line := 3, end_line := 4,
        complexity_score := 1, is_public := true, parent_id := none, metadata := [] },
      { id := 2, file_id := 1, type := "class", qualified_name := "A::B",
        simple_name := "B", signature := "class B", start_line := 1, end_line := 5,
        complexity_score := 0, is_public := true, parent_id := none, metadata := [] }],
    relationships := [],
    chunks := [],
    nextEntityId := 3, nextRelationshipId := 1, nextChunkId := 1 }

/-! ## The claims under test, formalized as stated -/

/-- C2 as stated, at one parse input: every extracted entity's qualified name
equals its lexical nesting path. -/
def c2ClaimAt (n : TSNode) : Prop :=
  ((extract_entities [] none none n).1.map (·.qualified_name)) = lexNames [] n

/-- C3 as stated, at one indexing input: either every prior row of the file
was replaced (no prior entity and no prior chunk of the file survives), or
the store is unchanged. -/
def c3ClaimAt (embed : String → Except Unit (List Int))
    (parsed : Except Unit (List Entity × List Relationship × List CodeChunk))
    (fid : Nat) (content : String) (st : Store) (cache : List (String × Nat)) : Prop :=
  let st2 := (index_file embed parsed fid content st cache).1
  ((∀ e ∈ st2.entities, e.file_id = fid → e ∉ st.entities) ∧
   (∀ c ∈ st2.chunks, c.file_id = fid → c ∉ st.chunks)) ∨ st2 = st

/-- C5 as stated, at one input: indexing from an empty store and then
re-indexing the identical content leaves the same id-insensitive
entity/relationship/chunk set for the file. -/
def c5ClaimAt (embed : String → Except Unit (List Int))
    (parsed : Except Unit (List Entity × List Relationship × List CodeChunk))
    (fid : Nat) (content : String) : Prop :=
  let r1 := index_file embed parsed fid content emptyStore []
  let r2 := index_file embed parsed fid content r1.1 r1.2
  storeView r2.1 fid = storeView r1.1 fid

/-- C7 as stated: the example source parses to exactly the three entities
`A`, `A::B`, `A::B::c`. -/
def c7Claim : Prop :=
  let names := (parse_file egContent egTree).1.map (·.qualified_name)
  names.length = 3 ∧ "A" ∈ names ∧ "A::B" ∈ names ∧ "A::B::c" ∈ names

/-- C9 as stated, at one store: the code's primary match is the
specification's best-ranked candidate. -/
def c9ClaimAt (st : Store) (symbol : String) : Prop :=
  codePrimary st symbol = specPrimary st symbol

/-- An entity with the given id exists in the store. -/
def entityIdPresent (st : Store) (i : Nat) : Prop :=
  ∃ e ∈ st.entities, e.id = i

/-- The stored row `_insert_entity` produces. -/
def storedOf (eid fid : Nat) (e : Entity) : StoredEntity :=
  { id := eid, file_id := fid, type := e.type,
    qualified_name := e.qualified_name, simple_name := e.simple_name,
    signature := e.signature, start_line := e.start_line,
    end_line := e.end_line, complexity_score := e.complexity_score,
    is_public := e.is_public, parent_id := none, metadata := e.metadata }

/-- The rows the entity-insertion loop appends, ids counting up from
`start`. -/
def newStored (start fid : Nat) : List Entity → List StoredEntity
  | [] => []
  | e :: rest => storedOf start fid e :: newStored (start + 1) fid rest

/-- The `qualified_name -> id` pairs the entity-insertion loop produces, in
insertion order. -/
def namePairs (start : Nat) : List Entity → List (String × Nat)
  | [] => []
  | e :: rest => (e.qualified_name, start) :: namePairs (start + 1) rest

/-- A store with the same files and counters but no
entity/relationship/chunk rows. -/
def resetData (st : Store) : Store :=
  { st with entities := [], relationships := [], chunks := [] }


instance : IsTotal SymbolUsage usageLE := by
  constructor
  intro a b
  unfold usageLE
  rcases lt_trichotomy a.file b.file with h | h | h
  · exact Or.inl (Or.inl h)
  · rcases Nat.le_total a.line b.line with h2 | h2
    · exact Or.inl (Or.inr ⟨h, h2⟩)
    · exact Or.inr (Or.inr ⟨h.symm, h2⟩)
  · exact Or.inr (Or.inl h)

instance : IsTrans SymbolUsage usageLE := by
  constructor
  intro a b c hab hbc
  unfold usageLE at hab hbc ⊢
  rcases hab with h1 | ⟨h1, h1l⟩
  · rcases hbc with h2 | ⟨h2, h2l⟩
    · exact Or.inl (h1.trans h2)
    · exact Or.inl (h2 ▸ h1)
  · rcases hbc with h2 | ⟨h2, h2l⟩
    · exact Or.inl (h1 ▸ h2)
    · exact Or.inr ⟨h1.trans h2, h1l.trans h2l⟩


theorem tsInductionAux (P : TSNode → Prop) (Q : List (Option String × TSNode) → Prop)
    (hnode : ∀ ty tx sr er ch, Q ch → P (.mk ty tx sr er ch))
    (hnil : Q [])
    (hcons : ∀ tag ty tx sr er kids rest,
      P (.mk ty tx sr er kids) → Q kids → Q rest → Q ((tag, .mk ty tx sr er kids) :: rest)) :
    ∀ fuel : Nat, (∀ n, sizeN n ≤ fuel → P n) ∧ (∀ l, sizeL l ≤ fuel → Q l) := by
  intro fuel
  induction fuel with
  | zero =>
    constructor
    · intro n hn
      cases n with
      | mk ty tx sr er ch => simp [sizeN] at hn
    · intro l hl
      cases l with
      | nil => exact hnil
      | cons p rest =>
        cases p with
        | mk tag n => cases n with
          | mk ty tx sr er kids => simp [sizeL, sizeN] at hl
  | succ k ih =>
    constructor
    · intro n hn
      cases n with
      | mk ty tx sr er ch =>
        apply hnode
        apply ih.2
        simp [sizeN] at hn
        omega
    · intro l hl
      cases l with
      | nil => exact hnil
      | cons p rest =>
        cases p with
        | mk tag n => cases n with
          | mk ty tx sr er kids =>
            simp only [sizeL, sizeN] at hl
            apply hcons
            · exact ih.1 _ (by simp [sizeN]; omega)
            · exact ih.2 _ (by omega)
            · exact ih.2 _ (by omega)

/-- Strong induction over a CST node together with child lists: the node case
gets the list hypothesis for its children, the list cons case gets the node
hypothesis, the list hypothesis for that node's children, and the tail. -/
theorem tsInduction (P : TSNode → Prop) (Q : List (Option String × TSNode) → Prop)
    (hnode : ∀ ty tx sr er ch, Q ch → P (.mk ty tx sr er ch))
    (hnil : Q [])
    (hcons : ∀ tag ty tx sr er kids rest,
      P (.mk ty tx sr er kids) → Q kids → Q rest → Q ((tag, .mk ty tx sr er kids) :: rest)) :
    (∀ n, P n) ∧ (∀ l, Q l) := by
  constructor
  · intro n
    exact (tsInductionAux P Q hnode hnil hcons (sizeN n)).1 n (Nat.le_refl _)
  · intro l
    exact (tsInductionAux P Q hnode hnil hcons (sizeL l)).2 l (Nat.le_refl _)

/-! ## C10 groundwork: every extracted entity is public -/

theorem extract_entities_all_public :
    (∀ n, ∀ ns cls pt, ∀ e ∈ (extract_entities ns cls pt n).1, e.is_public = true) ∧
    (∀ l, (∀ ns cls, ∀ e ∈ (extractBodyKids ns cls l).1, e.is_public = true) ∧
          (∀ ns cls pt, ∀ e ∈ (extract_entities_list ns cls pt l).1, e.is_public = true)) := by
  apply tsInduction
    (fun n => ∀ ns cls pt, ∀ e ∈ (extract_entities ns cls pt n).1, e.is_public = true)
    (fun l => (∀ ns cls, ∀ e ∈ (extractBodyKids ns cls l).1, e.is_public = true) ∧
          (∀ ns cls pt, ∀ e ∈ (extract_entities_list ns cls pt l).1, e.is_public = true))
  · intro ty tx sr er ch hq ns cls pt e he
    simp only [extract_entities] at he
    split at he
    · -- namespace
      split at he
      · exact hq.1 _ _ _ he
      · simp at he
    · split at he
      · -- class with name
        split at he
        next nameNode heq =>
          simp only [List.mem_cons] at he
          rcases he with he | he
          · subst he; rfl
          · exact hq.1 _ _ _ he
        next heq => simp at he
      · split at he
        · -- function branch
          split at he
          · simp at he
          · split at he
            · simp at he
            · simp only [List.mem_singleton] at he
              subst he; rfl
        · split at he
          · -- enum
            split at he
            · simp only [List.mem_singleton] at he
              subst he; rfl
            · simp at he
          · exact (hq.2) _ _ _ _ he
  · constructor
    · intro ns cls e he
      simp [extractBodyKids] at he
    · intro ns cls pt e he
      simp [extract_entities_list] at he
  · intro tag ty tx sr er kids rest hp hqkids hqrest
    constructor
    · intro ns cls e he
      simp only [extractBodyKids] at he
      split at he
      · exact hqkids.2 _ _ _ _ he
      · exact hqrest.1 _ _ _ he
    · intro ns cls pt e he
      simp only [extract_entities_list, List.mem_append] at he
      rcases he with he | he
      · exact hp _ _ _ _ he
      · exact hqrest.2 _ _ _ _ he

/-! ## Traversal lemmas -/

theorem TSNode.ty_mk (t x : String) (a b : Nat) (ch : List (Option String × TSNode)) :
    (TSNode.mk t x a b ch).ty = t := rfl

theorem TSNode.text_mk (t x : String) (a b : Nat) (ch : List (Option String × TSNode)) :
    (TSNode.mk t x a b ch).text = x := rfl

theorem TSNode.kids_mk (t x : String) (a b : Nat) (ch : List (Option String × TSNode)) :
    (TSNode.mk t x a b ch).kids = ch := rfl

/-- The complexity counter equals the specification-side count over the
flattened subtree. -/
theorem countControlFlow_eq_flatten :
    (∀ n, countControlFlow n =
      ((flattenNode n).filter (fun m => controlFlowKinds.contains m.ty)).length) ∧
    (∀ l, countControlFlowKids l =
      ((flattenKids l).filter (fun m => controlFlowKinds.contains m.ty)).length) := by
  apply tsInduction
    (fun n => countControlFlow n =
      ((flattenNode n).filter (fun m => controlFlowKinds.contains m.ty)).length)
    (fun l => countControlFlowKids l =
      ((flattenKids l).filter (fun m => controlFlowKinds.contains m.ty)).length)
  · intro ty tx sr er ch hq
    simp only [countControlFlow, flattenNode, List.filter_cons, TSNode.ty_mk]
    by_cases hcf : ty ∈ controlFlowKinds
    · simp [hcf, hq]
      omega
    · simp [hcf, hq]
  · simp [countControlFlowKids, flattenKids]
  · intro tag ty tx sr er kids rest hp hqkids hqrest
    simp only [countControlFlowKids, flattenKids, List.filter_append, List.length_append]
    omega

/-- The per-entity facts about extracted entity kinds and complexity
scores: the kind is one of class/struct/function/enum (never namespace),
function entities carry `calculate_complexity`-style scores (hence at least
1), and class/struct/enum entities carry score 0. -/
def entityKindFacts (e : Entity) : Prop :=
  (e.type = "class" ∨ e.type = "struct" ∨ e.type = "function" ∨ e.type = "enum") ∧
  (e.type = "function" → 1 ≤ e.complexity_score) ∧
  ((e.type = "class" ∨ e.type = "struct" ∨ e.type = "enum") → e.complexity_score = 0)

theorem extract_entities_kind_facts :
    (∀ n, ∀ ns cls pt, ∀ e ∈ (extract_entities ns cls pt n).1, entityKindFacts e) ∧
    (∀ l, (∀ ns cls, ∀ e ∈ (extractBodyKids ns cls l).1, entityKindFacts e) ∧
          (∀ ns cls pt, ∀ e ∈ (extract_entities_list ns cls pt l).1, entityKindFacts e)) := by
  apply tsInduction
    (fun n => ∀ ns cls pt, ∀ e ∈ (extract_entities ns cls pt n).1, entityKindFacts e)
    (fun l => (∀ ns cls, ∀ e ∈ (extractBodyKids ns cls l).1, entityKindFacts e) ∧
          (∀ ns cls pt, ∀ e ∈ (extract_entities_list ns cls pt l).1, entityKindFacts e))
  · intro ty tx sr er ch hq ns cls pt e he
    simp only [extract_entities] at he
    split at he
    · split at he
      · exact hq.1 _ _ _ he
      · simp at he
    · split at he
      next hcls _ =>
        split at he
        next nameNode heq =>
          simp only [List.mem_cons] at he
          rcases he with he | he
          · subst he
            constructor
            · split
              · left; rfl
              · right; left; rfl
            · constructor
              · intro hf
                split at hf <;> simp_all
              · intro _; rfl
          · exact hq.1 _ _ _ he
        next heq => simp at he
      · split at he
        · split at he
          · simp at he
          · split at he
            · simp at he
            · simp only [List.mem_singleton] at he
              subst he
              refine ⟨by simp, fun _ => ?_, by simp⟩
              simp [calculate_complexity]
        · split at he
          · split at he
            · simp only [List.mem_singleton] at he
              subst he
              exact ⟨by simp, by simp, fun _ => rfl⟩
            · simp at he
          · exact (hq.2) _ _ _ _ he
  · constructor
    · intro ns cls e he
      simp [extractBodyKids] at he
    · intro ns cls pt e he
      simp [extract_entities_list] at he
  · intro tag ty tx sr er kids rest hp hqkids hqrest
    constructor
    · intro ns cls e he
      simp only [extractBodyKids] at he
      split at he
      · exact hqkids.2 _ _ _ _ he
      · exact hqrest.1 _ _ _ he
    · intro ns cls pt e he
      simp only [extract_entities_list, List.mem_append] at he
      rcases he with he | he
      · exact hp _ _ _ _ he
      · exact hqrest.2 _ _ _ _ he

/-- Every relationship from the relationship pass has an empty `from`
endpoint and is an include or call edge. -/
theorem extract_relationships_facts :
    (∀ n, ∀ r ∈ extract_relationships n,
      r.from_entity = "" ∧ (r.relationship_type = "includes" ∨ r.relationship_type = "calls")) ∧
    (∀ l, ∀ r ∈ extract_relationships_kids l,
      r.from_entity = "" ∧ (r.relationship_type = "includes" ∨ r.relationship_type = "calls")) := by
  apply tsInduction
    (fun n => ∀ r ∈ extract_relationships n,
      r.from_entity = "" ∧ (r.relationship_type = "includes" ∨ r.relationship_type = "calls"))
    (fun l => ∀ r ∈ extract_relationships_kids l,
      r.from_entity = "" ∧ (r.relationship_type = "includes" ∨ r.relationship_type = "calls"))
  · intro ty tx sr er ch hq r hr
    simp only [extract_relationships, List.mem_append] at hr
    rcases hr with hr | hr
    · split at hr
      · split at hr
        · split at hr
          · simp at hr
          · simp only [List.mem_singleton] at hr
            subst hr
            exact ⟨rfl, Or.inl rfl⟩
        · simp at hr
      · split at hr
        · split at hr
          next fnode heq =>
            simp only [List.mem_singleton] at hr
            subst hr
            exact ⟨rfl, Or.inr rfl⟩
          next heq => simp at hr
        · simp at hr
    · exact hq r hr
  · intro r hr
    simp [extract_relationships_kids] at hr
  · intro tag ty tx sr er kids rest hp hqkids hqrest r hr
    simp only [extract_relationships_kids, List.mem_append] at hr
    rcases hr with hr | hr
    · exact hp r hr
    · exact hqrest r hr

/-- Every relationship from the entity pass is an inheritance edge. -/
theorem extract_entities_rels_inherits :
    (∀ n, ∀ ns cls pt, ∀ r ∈ (extract_entities ns cls pt n).2, r.relationship_type = "inherits") ∧
    (∀ l, (∀ ns cls, ∀ r ∈ (extractBodyKids ns cls l).2, r.relationship_type = "inherits") ∧
          (∀ ns cls pt, ∀ r ∈ (extract_entities_list ns cls pt l).2, r.relationship_type = "inherits")) := by
  apply tsInduction
    (fun n => ∀ ns cls pt, ∀ r ∈ (extract_entities ns cls pt n).2, r.relationship_type = "inherits")
    (fun l => (∀ ns cls, ∀ r ∈ (extractBodyKids ns cls l).2, r.relationship_type = "inherits") ∧
          (∀ ns cls pt, ∀ r ∈ (extract_entities_list ns cls pt l).2, r.relationship_type = "inherits"))
  · intro ty tx sr er ch hq ns cls pt r hr
    simp only [extract_entities] at hr
    split at hr
    · split at hr
      · exact hq.1 _ _ _ hr
      · simp at hr
    · split at hr
      · split at hr
        next nameNode heq =>
          simp only [List.mem_append] at hr
          rcases hr with hr | hr
          · split at hr
            next bc hbc =>
              simp only [List.mem_map] at hr
              obtain ⟨b, hb, hrb⟩ := hr
              subst hrb
              rfl
            next hbc => simp at hr
          · exact hq.1 _ _ _ hr
        next heq => simp at hr
      · split at hr
        · split at hr
          · simp at hr
          · split at hr
            · simp at hr
            · simp at hr
        · split at hr
          · split at hr
            · simp at hr
            · simp at hr
          · exact (hq.2) _ _ _ _ hr
  · constructor
    · intro ns cls r hr
      simp [extractBodyKids] at hr
    · intro ns cls pt r hr
      simp [extract_entities_list] at hr
  · intro tag ty tx sr er kids rest hp hqkids hqrest
    constructor
    · intro ns cls r hr
      simp only [extractBodyKids] at hr
      split at hr
      · exact hqkids.2 _ _ _ _ hr
      · exact hqrest.1 _ _ _ hr
    · intro ns cls pt r hr
      simp only [extract_entities_list, List.mem_append] at hr
      rcases hr with hr | hr
      · exact hp _ _ _ _ hr
      · exact hqrest.2 _ _ _ _ hr

/-! ## Claim C10 -/

/-- C10: every entity produced by the parser is marked public — `_is_public`
ignores its input and returns `True`, and class/struct/enum entities are
hard-coded public, so no extracted entity is ever non-public. -/
theorem c10_every_entity_public (n : TSNode) (ns : List String) (cls pt : Option String) :
    (∀ e ∈ (extract_entities ns cls pt n).1, e.is_public = true) ∧
    (∀ m : TSNode, is_public m = true) :=
  ⟨fun e he => extract_entities_all_public.1 n ns cls pt e he, fun _ => rfl⟩

/-- Witness for C10 at the example tree. -/
theorem c10_witness :
    (∀ e ∈ (extract_entities [] none none egTree).1, e.is_public = true) ∧
    (∀ m : TSNode, is_public m = true) :=
  c10_every_entity_public egTree [] none none

/-! ## Claim C8 -/

/-- Counterexample to C8 as stated: the enum entity extracted from
`enum E { }` has complexity score 0, not at least 1, and class/struct/enum
entities never get the `1 + control-flow count` score. -/
theorem c8_counterexample :
    ∃ e ∈ (extract_entities [] none none enumTree).1, e.complexity_score = 0 := by
  refine ⟨(extract_entities [] none none enumTree).1.head (by decide), ?_, ?_⟩ <;> decide

/-- C8 amended: only function entities carry `complexity_score =
calculate_complexity = 1 + (number of control-flow nodes in the subtree)`,
hence at least 1; class, struct and enum entities are hard-coded 0, and no
namespace entity exists at all. -/
theorem c8_complexity (n : TSNode) (ns : List String) (cls pt : Option String) :
    (∀ e ∈ (extract_entities ns cls pt n).1, entityKindFacts e) ∧
    (calculate_complexity n =
      1 + ((flattenNode n).filter (fun m => controlFlowKinds.contains m.ty)).length) :=
  ⟨fun e he => extract_entities_kind_facts.1 n ns cls pt e he,
   by rw [calculate_complexity, countControlFlow_eq_flatten.1]⟩

/-- Witness for C8 at a function with one `if` statement. -/
theorem c8_witness :
    (∀ e ∈ (extract_entities [] none none
      (.mk "function_definition" "" 0 2
        [(some "declarator", .mk "function_declarator" "f()" 0 0
          [(some "declarator", .mk "identifier" "f" 0 0 [])]),
         (some "body", .mk "compound_statement" "" 0 2
           [(none, .mk "if_statement" "" 1 1 [])])])).1, entityKindFacts e) ∧
    (calculate_complexity
      (.mk "function_definition" "" 0 2
        [(some "declarator", .mk "function_declarator" "f()" 0 0
          [(some "declarator", .mk "identifier" "f" 0 0 [])]),
         (some "body", .mk "compound_statement" "" 0 2
           [(none, .mk "if_statement" "" 1 1 [])])]) =
      1 + ((flattenNode
      (.mk "function_definition" "" 0 2
        [(some "declarator", .mk "function_declarator" "f()" 0 0
          [(some "declarator", .mk "identifier" "f" 0 0 [])]),
         (some "body", .mk "compound_statement" "" 0 2
           [(none, .mk "if_statement" "" 1 1 [])])])).filter
        (fun m => controlFlowKinds.contains m.ty)).length) :=
  c8_complexity _ [] none none

/-! ## Claim C6 -/

/-- C6: in the change-detection pass, a discovered file is handed to
re-indexing iff it is new (no stored row for its path) or its stored content
hash differs from the current one; in particular a file whose stored hash
matches is skipped. -/
theorem c6_change_detection (st : Store) (found : List (String × String))
    (hnodup : (found.map (·.1)).Nodup) :
    ∀ path hash, (path, hash) ∈ found →
      (path ∈ check_for_changes st found ↔
        (st.files.find? (fun f => f.path == path) = none ∨
         ∃ row, st.files.find? (fun f => f.path == path) = some row ∧
           row.content_hash ≠ hash)) := by
  intro path hash hmem
  have hinj := List.inj_on_of_nodup_map hnodup
  constructor
  · intro hin
    simp only [check_for_changes, List.mem_map, List.mem_filter] at hin
    obtain ⟨pc, ⟨hpcmem, hpcch⟩, hpc1⟩ := hin
    have hpc : pc = (path, hash) := hinj hpcmem hmem (by simpa using hpc1)
    subst hpc
    simp only [fileChanged] at hpcch
    cases hfind : st.files.find? (fun f => f.path == path) with
    | none => exact Or.inl rfl
    | some row =>
      refine Or.inr ⟨row, rfl, ?_⟩
      rw [hfind] at hpcch
      simpa using hpcch
  · intro h
    simp only [check_for_changes, List.mem_map, List.mem_filter]
    refine ⟨(path, hash), ⟨hmem, ?_⟩, rfl⟩
    simp only [fileChanged]
    rcases h with hnone | ⟨row, hrow, hne⟩
    · rw [hnone]
    · rw [hrow]
      simpa using hne

/-- Witness for C6: a file with a matching stored hash is skipped, a changed
and a new file are picked up. -/
theorem c6_witness :
    "a.cpp" ∉ check_for_changes priorStore [("a.cpp", "h0"), ("b.cpp", "x")] ∧
    "b.cpp" ∈ check_for_changes priorStore [("a.cpp", "h0"), ("b.cpp", "x")] := by
  constructor
  · intro hin
    have := (c6_change_detection priorStore [("a.cpp", "h0"), ("b.cpp", "x")]
      (by decide) "a.cpp" "h0" (by decide)).mp hin
    revert this
    decide
  · exact (c6_change_detection priorStore [("a.cpp", "h0"), ("b.cpp", "x")]
      (by decide) "b.cpp" "x" (by decide)).mpr (by decide)

/-! ## Claim C7 -/

/-- Counterexample to C7 as stated: the example source yields exactly one
entity, `A::B` — no namespace entity `A` is ever created (the namespace
branch only recurses), and no entity `A::B::c` is created (the in-class
method name is a leaf `field_identifier`, so the name search returns
nothing). -/
theorem c7_counterexample : ¬ c7Claim := by
  unfold c7Claim
  decide

/-- C7 amended: the example parses to exactly the entity `A::B`, whose
parent stays unresolved (`A` names no entity); the stripping-based parent
resolution itself works where the parent exists, as nested classes show:
after indexing `class A2 { class B2 { ... } }` the entity `A2::B2` has its
parent resolved to `A2`. -/
theorem c7_amended :
    (parse_file egContent egTree).1.map (·.qualified_name) = ["A::B"] ∧
    (∃ e ∈ ((index_file embed1 (.ok (parse_file egContent egTree)) 7 egContent
        emptyStore []).1).entities,
      e.qualified_name = "A::B" ∧ e.parent_id = none) ∧
    (∃ eb ∈ ((index_file embed1 (.ok (parse_file "" nestTree)) 7 ""
        emptyStore []).1).entities,
     ∃ ea ∈ ((index_file embed1 (.ok (parse_file "" nestTree)) 7 ""
        emptyStore []).1).entities,
      eb.qualified_name = "A2::B2" ∧ ea.qualified_name = "A2" ∧
      eb.parent_id = some ea.id) := by
  refine ⟨by decide, ?_, ?_⟩
  · exact ⟨((index_file embed1 (.ok (parse_file egContent egTree)) 7 egContent
        emptyStore []).1).entities.head (by decide), by decide, by decide⟩
  · refine ⟨((index_file embed1 (.ok (parse_file "" nestTree)) 7 ""
        emptyStore []).1).entities.get ⟨1, by decide⟩, by decide,
      ((index_file embed1 (.ok (parse_file "" nestTree)) 7 ""
        emptyStore []).1).entities.head (by decide), by decide, by decide⟩

/-! ## Claim C2 (counterexample part) -/

/-- Counterexample to C2 as stated: for triply nested classes the innermost
entity's qualified name is `B2::C2`, while its lexical nesting path is
`A2::B2::C2` — `_build_qualified_name` keeps only the innermost class
name. -/
theorem c2_counterexample :
    ¬ c2ClaimAt nestTree ∧
    (extract_entities [] none none nestTree).1.map (·.qualified_name) =
      ["A2", "A2::B2", "B2::C2"] ∧
    lexNames [] nestTree = ["A2", "A2::B2", "A2::B2::C2"] := by
  refine ⟨?_, by decide, by decide⟩
  unfold c2ClaimAt
  decide

/-! ## Claim C9 (counterexample part) -/

/-- Counterexample to C9 as stated: for the symbol `"B"` the stored order
has `A::B::c` (a containment-only match) before `A::B` (a containment and
simple-name match); the specified ranking puts `A::B` first, but the code
takes the first row of the unordered result and returns `A::B::c`. -/
theorem c9_counterexample :
    ¬ c9ClaimAt symStore "B" ∧
    codePrimary symStore "B" = some "A::B::c" ∧
    specPrimary symStore "B" = some "A::B" := by
  refine ⟨?_, by decide, by decide⟩
  unfold c9ClaimAt
  decide

/-! ## Claim C5 (counterexample part) -/

/-- Counterexample to C5 as stated: on the parse-failure path the fallback
chunking deletes nothing, so indexing the same failing content twice leaves
two copies of the fallback chunk where one indexing leaves one. -/
theorem c5_counterexample :
    ¬ c5ClaimAt embed1 (.error ()) 7 longLine ∧
    ((index_file embed1 (.error ()) 7 longLine emptyStore []).1).chunks.length = 1 ∧
    ((index_file embed1 (.error ()) 7 longLine
      (index_file embed1 (.error ()) 7 longLine emptyStore []).1
      (index_file embed1 (.error ()) 7 longLine emptyStore []).2).1).chunks.length = 2 := by
  refine ⟨?_, by decide, by decide⟩
  unfold c5ClaimAt
  decide

/-! ## Claim C4 -/

/-- Characterization of the fallback insertion loop under a total embedding
gateway: entities, relationships and files are untouched; the windows that
pass the 50-character test are appended as fallback chunks. -/
theorem simpleChunkInsertLoop_spec (embed : String → Except Unit (List Int))
    (fid : Nat) (lines : List String) (htot : ∀ s, (embed s).isOk = true) :
    ∀ (idxs : List Nat) (st : Store),
      (simpleChunkInsertLoop embed fid lines st idxs).files = st.files ∧
      (simpleChunkInsertLoop embed fid lines st idxs).entities = st.entities ∧
      (simpleChunkInsertLoop embed fid lines st idxs).relationships = st.relationships ∧
      (simpleChunkInsertLoop embed fid lines st idxs).chunks.map chunkData =
        st.chunks.map chunkData ++
          (idxs.filterMap (fun i =>
            if (pyStrip (joinNewline ((lines.drop i).take 100))).data.length < 50 then none
            else some (i, (lines.drop i).take 100))).map (fallbackChunkData fid) := by
  intro idxs
  induction idxs with
  | nil => intro st; simp [simpleChunkInsertLoop]
  | cons i rest ih =>
    intro st
    by_cases hsk : (pyStrip (joinNewline ((lines.drop i).take 100))).data.length < 50
    · simp only [simpleChunkInsertLoop]
      rw [if_pos hsk]
      have hr := ih st
      refine ⟨hr.1, hr.2.1, hr.2.2.1, ?_⟩
      rw [hr.2.2.2, List.filterMap_cons_none (by rw [if_pos hsk])]
    · cases hemb : embed (joinNewline ((lines.drop i).take 100)) with
      | error e =>
        have := htot (joinNewline ((lines.drop i).take 100))
        rw [hemb] at this
        simp [Except.isOk, Except.toBool] at this
      | ok v =>
        simp only [simpleChunkInsertLoop]
        rw [if_neg hsk, hemb]
        have hr := ih { st with
          chunks := st.chunks ++ [{
            id := st.nextChunkId, entity_id := none, file_id := fid,
            chunk_type := "mixed", content := joinNewline ((lines.drop i).take 100),
            start_line := i + 1, end_line := i + ((lines.drop i).take 100).length,
            embedding := v, metadata := ChunkMeta.fallback }],
          nextChunkId := st.nextChunkId + 1 }
        refine ⟨hr.1, hr.2.1, hr.2.2.1, ?_⟩
        rw [hr.2.2.2, @List.filterMap_cons_some _ _ _ _ _ (i, (lines.drop i).take 100) (by rw [if_neg hsk])]
        simp [chunkData, fallbackChunkData]

/-- C4: on the parse-failure path, indexing stores no entities and no
relationships and appends exactly the fallback windows as `mixed` chunks:
windows start at multiples of 80 (100-line windows advancing with 20-line
overlap), contain at most 100 lines, are exactly the corresponding slice of
the content's lines, skip any window whose stripped text is under 50
characters, and every qualifying start index is present.  The parse failure
itself is absorbed: `index_file` returns normally. -/
theorem c4_parse_failure_fallback (embed : String → Except Unit (List Int))
    (st : Store) (fid : Nat) (content : String) (cache : List (String × Nat))
    (htot : ∀ s, (embed s).isOk = true) :
    ((index_file embed (.error ()) fid content st cache).1.entities = st.entities) ∧
    ((index_file embed (.error ()) fid content st cache).1.relationships = st.relationships) ∧
    ((index_file embed (.error ()) fid content st cache).1.chunks.map chunkData =
      st.chunks.map chunkData ++ (fallbackWindows content).map (fallbackChunkData fid)) ∧
    (∀ iw ∈ fallbackWindows content,
      iw.1 % 80 = 0 ∧ iw.2.length ≤ 100 ∧
      ¬ (pyStrip (joinNewline iw.2)).data.length < 50 ∧
      iw.2 = ((pySplitlines content).drop iw.1).take 100) ∧
    (∀ i, i % 80 = 0 → i < (pySplitlines content).length →
      ¬ (pyStrip (joinNewline (((pySplitlines content).drop i).take 100))).data.length < 50 →
      (i, ((pySplitlines content).drop i).take 100) ∈ fallbackWindows content) := by
  have hspec := simpleChunkInsertLoop_spec embed fid (pySplitlines content) htot
    (fallbackWindowIndexes (pySplitlines content).length) st
  have hwin : fallbackWindows content =
      (fallbackWindowIndexes (pySplitlines content).length).filterMap (fun i =>
        if (pyStrip (joinNewline (((pySplitlines content).drop i).take 100))).data.length < 50
        then none
        else some (i, ((pySplitlines content).drop i).take 100)) := by
    rw [fallbackWindows]
  refine ⟨?_, ?_, ?_, ?_, ?_⟩
  · simpa [index_file, simple_file_indexing] using hspec.2.1
  · simpa [index_file, simple_file_indexing] using hspec.2.2.1
  · rw [hwin]
    simpa [index_file, simple_file_indexing] using hspec.2.2.2
  · intro iw hiw
    rw [hwin] at hiw
    simp only [List.mem_filterMap] at hiw
    obtain ⟨i, hi, hif⟩ := hiw
    split at hif
    · simp at hif
    next hcond =>
      have hiw2 : iw = (i, ((pySplitlines content).drop i).take 100) := by
        simpa using hif.symm
      subst hiw2
      simp only [fallbackWindowIndexes, List.mem_range'] at hi
      obtain ⟨j, hj, hji⟩ := hi
      refine ⟨by omega, ?_, hcond, rfl⟩
      show (((pySplitlines content).drop i).take 100).length ≤ 100
      have hlen := List.length_take 100 ((pySplitlines content).drop i)
      omega
  · intro i hmod hlt hcond
    rw [hwin]
    simp only [List.mem_filterMap]
    refine ⟨i, ?_, ?_⟩
    · simp only [fallbackWindowIndexes, List.mem_range']
      exact ⟨i / 80, by omega, by omega⟩
    · rw [if_neg hcond]

/-- Witness for C4: indexing a failing parse of a short two-line content
(whose only window is under 50 characters) inserts nothing. -/
theorem c4_witness :
    ((index_file embed1 (.error ()) 7 "ab\ncd" priorStore []).1.entities =
      priorStore.entities) ∧
    ((index_file embed1 (.error ()) 7 "ab\ncd" priorStore []).1.relationships =
      priorStore.relationships) ∧
    ((index_file embed1 (.error ()) 7 "ab\ncd" priorStore []).1.chunks.map chunkData =
      priorStore.chunks.map chunkData ++
        (fallbackWindows "ab\ncd").map (fallbackChunkData 7)) := by
  have h := c4_parse_failure_fallback embed1 priorStore 7 "ab\ncd" []
    (fun s => rfl)
  exact ⟨h.1, h.2.1, h.2.2.1⟩

/-! ## Claim C9 (amended part) -/

theorem filter_head?_eq_find? {α : Type} (p : α → Bool) (l : List α) :
    (l.filter p).head? = l.find? p := by
  induction l with
  | nil => rfl
  | cons a t ih =>
    by_cases h : p a
    · simp [List.filter_cons, List.find?_cons, h]
    · simp [List.filter_cons, List.find?_cons, h, ih]

theorem take_head? {α : Type} (n : Nat) (l : List α) :
    (l.take (n + 1)).head? = l.head? := by
  cases l <;> rfl

/-- C9 amended: `find_symbol` selects as primary the FIRST stored entity (in
insertion order) whose qualified name contains the symbol or whose simple
name equals it — no ranking is applied.  The primary's stored code is the
first of its chunks by start line, and the usages are the incoming
relationship edges joined with their caller and file, sorted by file path
then line number and limited to `max_usages`. -/
theorem c9_find_symbol (st : Store) (symbol : String) (max_usages : Nat) :
    (∀ r, find_symbol st symbol true max_usages = some r →
      (∃ e, st.entities.find? (symbolPred st symbol) = some e ∧
        r.symbol = e.qualified_name ∧ r.type = e.type ∧
        r.signature = e.signature ∧
        r.code = (((st.chunks.filter (fun c => c.entity_id == some e.id)).insertionSort
          chunkStartLE).head?).map (·.content)) ∧
      List.Sorted usageLE r.usages ∧ r.usages.length ≤ max_usages) ∧
    (find_symbol st symbol true max_usages = none ↔
      st.entities.find? (symbolPred st symbol) = none) := by
  have hhead : (findSymbolCandidates st symbol).head? =
      st.entities.find? (symbolPred st symbol) := by
    rw [findSymbolCandidates]
    rw [show (10 : Nat) = 9 + 1 from rfl, take_head?, filter_head?_eq_find?]
    rfl
  constructor
  · intro r hr
    rw [find_symbol] at hr
    cases hc : findSymbolCandidates st symbol with
    | nil => rw [hc] at hr; simp at hr
    | cons e rest =>
      rw [hc] at hr
      simp only [Option.some.injEq] at hr
      rw [hc] at hhead
      simp only [List.head?_cons] at hhead
      refine ⟨⟨e, hhead.symm, ?_, ?_, ?_, ?_⟩, ?_, ?_⟩
      · rw [← hr]
      · rw [← hr]
      · rw [← hr]
      · rw [← hr]
      · rw [← hr]
        simp only [if_pos rfl]
        exact List.Pairwise.sublist (List.take_sublist _ _)
          (List.sorted_insertionSort usageLE _)
      · rw [← hr]
        simp only [if_pos trivial]
        exact List.length_take_le _ _
  · rw [find_symbol]
    cases hc : findSymbolCandidates st symbol with
    | nil =>
      rw [hc] at hhead
      simp only [List.head?_nil] at hhead
      simp only [hc]
      simp [← hhead]
    | cons e rest =>
      rw [hc] at hhead
      simp only [List.head?_cons] at hhead
      simp only [hc]
      simp [← hhead]

/-- Witness for C9 at the concrete two-entity store: the lookup succeeds and
its usage list is sorted and within the limit. -/
theorem c9_witness :
    (find_symbol symStore "B" true 5).elim False
      (fun r => r.symbol = "A::B::c" ∧ List.Sorted usageLE r.usages ∧
        r.usages.length ≤ 5) := by
  cases hfs : find_symbol symStore "B" true 5 with
  | none =>
    have h2 := (c9_find_symbol symStore "B" 5).2.mp hfs
    have h3 : symStore.entities.find? (symbolPred symStore "B") ≠ none := by decide
    exact absurd h2 h3
  | some r =>
    have h := (c9_find_symbol symStore "B" 5).1 r hfs
    obtain ⟨⟨e, hfind, hsym, _⟩, hsort, hlen⟩ := h
    have he : e = symStore.entities.head (by decide) := by
      have : symStore.entities.find? (symbolPred symStore "B") =
          some (symStore.entities.head (by decide)) := by decide
      rw [this] at hfind
      exact (Option.some.injEq _ _ ▸ hfind).symm
    simp only [Option.elim]
    refine ⟨?_, hsort, hlen⟩
    rw [hsym, he]
    decide

/-! ## Indexer phase lemmas -/

theorem lookupName_mem {m : List (String × Nat)} {k : String} {i : Nat}
    (h : lookupName m k = some i) : ∃ p ∈ m, p.2 = i := by
  unfold lookupName at h
  cases hf : m.find? (fun p => p.1 == k) with
  | none => rw [hf] at h; simp at h
  | some p =>
    rw [hf] at h
    exact ⟨p, List.mem_of_find?_eq_some hf, by simpa using h⟩

theorem insert_relationship_frame (st : Store) (rel : Relationship)
    (m c : List (String × Nat)) :
    (insert_relationship st rel m c).entities = st.entities ∧
    (insert_relationship st rel m c).chunks = st.chunks ∧
    (insert_relationship st rel m c).files = st.files ∧
    (insert_relationship st rel m c).nextEntityId = st.nextEntityId ∧
    (insert_relationship st rel m c).nextChunkId = st.nextChunkId := by
  unfold insert_relationship
  repeat' split
  all_goals try simp [pyTruthy]
  all_goals repeat' split
  all_goals first
  | exact ⟨rfl, rfl, rfl, rfl, rfl⟩
  | simp

theorem insert_relationship_includes (st : Store) (rel : Relationship)
    (m c : List (String × Nat)) (h : rel.relationship_type = "includes") :
    insert_relationship st rel m c = st := by
  simp [insert_relationship, h]

theorem insert_relationship_unresolved_from (st : Store) (rel : Relationship)
    (m c : List (String × Nat)) (hm : lookupName m rel.from_entity = none)
    (hc : lookupName c rel.from_entity = none) :
    insert_relationship st rel m c = st := by
  simp only [insert_relationship, hm, hc, pyTruthy]
  simp

theorem resolve_from_mem {m c : List (String × Nat)} {k : String} {fi : Nat}
    (h : (match lookupName m k with
          | some i => some i
          | none => lookupName c k) = some fi) :
    (∃ p ∈ m, p.2 = fi) ∨ (∃ p ∈ c, p.2 = fi) := by
  cases hfm : lookupName m k with
  | some i =>
    rw [hfm] at h
    simp only [Option.some.injEq] at h
    subst h
    exact Or.inl (lookupName_mem hfm)
  | none =>
    rw [hfm] at h
    exact Or.inr (lookupName_mem h)

theorem resolve_to_mem {m c : List (String × Nat)} {k : String} {fi : Nat} {st : Store}
    (h : ((match lookupName m k with
          | some i => some i
          | none =>
            match lookupName c k with
            | some i => some i
            | none =>
              (st.entities.find? (fun e : StoredEntity =>
                e.simple_name == lastScopeSegment k)).map
                  (fun x : StoredEntity => x.id) : Option Nat)) = some fi) :
    (∃ p ∈ m, p.2 = fi) ∨ (∃ p ∈ c, p.2 = fi) ∨ entityIdPresent st fi := by
  cases hfm : lookupName m k with
  | some i =>
    rw [hfm] at h
    simp only [Option.some.injEq] at h
    subst h
    exact Or.inl (lookupName_mem hfm)
  | none =>
    rw [hfm] at h
    cases hfc : lookupName c k with
    | some i =>
      rw [hfc] at h
      simp only [Option.some.injEq] at h
      subst h
      exact Or.inr (Or.inl (lookupName_mem hfc))
    | none =>
      rw [hfc] at h
      cases hdb : st.entities.find? (fun e => e.simple_name == lastScopeSegment k) with
      | none => rw [hdb] at h; simp at h
      | some e =>
        rw [hdb] at h
        simp only [Option.map_some', Option.some.injEq] at h
        exact Or.inr (Or.inr ⟨e, List.mem_of_find?_eq_some hdb, h⟩)

theorem insert_relationship_endpoints (st : Store) (rel : Relationship)
    (m c : List (String × Nat)) :
    ∀ r2 ∈ (insert_relationship st rel m c).relationships,
      r2 ∈ st.relationships ∨
      (((∃ p ∈ m, p.2 = r2.from_entity_id) ∨ (∃ p ∈ c, p.2 = r2.from_entity_id)) ∧
       ((∃ p ∈ m, p.2 = r2.to_entity_id) ∨ (∃ p ∈ c, p.2 = r2.to_entity_id) ∨
        entityIdPresent st r2.to_entity_id)) := by
  intro r2 hr2
  rw [insert_relationship] at hr2
  generalize hF : (match lookupName m rel.from_entity with
    | some i => some i
    | none => lookupName c rel.from_entity) = fromOpt at hr2
  generalize hT : ((match lookupName m rel.to_entity with
    | some i => some i
    | none =>
      match lookupName c rel.to_entity with
      | some i => some i
      | none =>
        (st.entities.find? (fun e : StoredEntity =>
          e.simple_name == lastScopeSegment rel.to_entity)).map
            (fun x : StoredEntity => x.id) : Option Nat)) = toOpt at hr2
  split at hr2
  · exact Or.inl hr2
  · dsimp only at hr2
    split at hr2
    next htruthy =>
      simp only [List.mem_append, List.mem_singleton] at hr2
      rcases hr2 with hr2 | hr2
      · exact Or.inl hr2
      · right
        rw [Bool.and_eq_true] at htruthy
        obtain ⟨htf, htt⟩ := htruthy
        subst hr2
        cases fromOpt with
        | none => simp [pyTruthy] at htf
        | some fi =>
          cases toOpt with
          | none => simp [pyTruthy] at htt
          | some ti =>
            exact ⟨resolve_from_mem hF, resolve_to_mem hT⟩
    · exact Or.inl hr2

theorem insertRelationshipsLoop_frame (m c : List (String × Nat)) :
    ∀ (rs : List Relationship) (st : Store),
      (insertRelationshipsLoop st m c rs).entities = st.entities ∧
      (insertRelationshipsLoop st m c rs).chunks = st.chunks ∧
      (insertRelationshipsLoop st m c rs).files = st.files ∧
      (insertRelationshipsLoop st m c rs).nextEntityId = st.nextEntityId ∧
      (insertRelationshipsLoop st m c rs).nextChunkId = st.nextChunkId := by
  intro rs
  induction rs with
  | nil => intro st; exact ⟨rfl, rfl, rfl, rfl, rfl⟩
  | cons r rest ih =>
    intro st
    have h1 := insert_relationship_frame st r m c
    have h2 := ih (insert_relationship st r m c)
    rw [insertRelationshipsLoop]
    exact ⟨h2.1.trans h1.1, h2.2.1.trans h1.2.1, h2.2.2.1.trans h1.2.2.1,
      h2.2.2.2.1.trans h1.2.2.2.1, h2.2.2.2.2.trans h1.2.2.2.2⟩

theorem insertRelationshipsLoop_endpoints (m c : List (String × Nat)) :
    ∀ (rs : List Relationship) (st : Store),
      ∀ r2 ∈ (insertRelationshipsLoop st m c rs).relationships,
        r2 ∈ st.relationships ∨
        (((∃ p ∈ m, p.2 = r2.from_entity_id) ∨ (∃ p ∈ c, p.2 = r2.from_entity_id)) ∧
         ((∃ p ∈ m, p.2 = r2.to_entity_id) ∨ (∃ p ∈ c, p.2 = r2.to_entity_id) ∨
          entityIdPresent st r2.to_entity_id)) := by
  intro rs
  induction rs with
  | nil => intro st r2 hr2; exact Or.inl hr2
  | cons r rest ih =>
    intro st r2 hr2
    rw [insertRelationshipsLoop] at hr2
    rcases ih (insert_relationship st r m c) r2 hr2 with h | ⟨h1, h2⟩
    · rcases insert_relationship_endpoints st r m c r2 h with h' | ⟨h1, h2⟩
      · exact Or.inl h'
      · exact Or.inr ⟨h1, h2⟩
    · right
      refine ⟨h1, ?_⟩
      rcases h2 with h2 | h2 | h2
      · exact Or.inl h2
      · exact Or.inr (Or.inl h2)
      · right; right
        obtain ⟨e, he, heid⟩ := h2
        rw [(insert_relationship_frame st r m c).1] at he
        exact ⟨e, he, heid⟩

theorem insertEntitiesLoop_spec (fid : Nat) :
    ∀ (es : List Entity) (st : Store) (m c : List (String × Nat)),
      (insertEntitiesLoop st fid m c es).1.entities =
        st.entities ++ newStored st.nextEntityId fid es ∧
      (insertEntitiesLoop st fid m c es).1.nextEntityId = st.nextEntityId + es.length ∧
      (insertEntitiesLoop st fid m c es).1.relationships = st.relationships ∧
      (insertEntitiesLoop st fid m c es).1.chunks = st.chunks ∧
      (insertEntitiesLoop st fid m c es).1.files = st.files ∧
      (insertEntitiesLoop st fid m c es).1.nextRelationshipId = st.nextRelationshipId ∧
      (insertEntitiesLoop st fid m c es).1.nextChunkId = st.nextChunkId ∧
      (insertEntitiesLoop st fid m c es).2.1 =
        (namePairs st.nextEntityId es).reverse ++ m ∧
      (insertEntitiesLoop st fid m c es).2.2 =
        (namePairs st.nextEntityId es).reverse ++ c := by
  intro es
  induction es with
  | nil =>
    intro st m c
    simp [insertEntitiesLoop, newStored, namePairs]
  | cons e rest ih =>
    intro st m c
    rw [insertEntitiesLoop]
    obtain ⟨h1, h2, h3, h4, h5, h6, h7, h8, h9⟩ := ih ((insert_entity st fid e).1)
      ((e.qualified_name, (insert_entity st fid e).2) :: m)
      ((e.qualified_name, (insert_entity st fid e).2) :: c)
    simp only [insert_entity] at h1 h2 h3 h4 h5 h6 h7 h8 h9 ⊢
    refine ⟨?_, ?_, h3, h4, h5, h6, h7, ?_, ?_⟩
    · rw [h1]
      simp [newStored, storedOf]
    · rw [h2]
      simp [List.length_cons]
      omega
    · rw [h8]
      simp [namePairs]
    · rw [h9]
      simp [namePairs]

theorem setParent_shape (entities : List StoredEntity) (eid pid : Nat) :
    (setParent entities eid pid).map (fun e => (e.id, entityData e)) =
      entities.map (fun e => (e.id, entityData e)) := by
  unfold setParent
  rw [List.map_map]
  apply List.map_congr_left
  intro e he
  simp only [Function.comp]
  by_cases h : (e.id == eid) = true
  · rw [if_pos h]
    simp [entityData]
  · rw [if_neg h]

theorem resolveParentsLoop_spec (m : List (String × Nat)) :
    ∀ (es : List Entity) (st : Store),
      (resolveParentsLoop st m es).relationships = st.relationships ∧
      (resolveParentsLoop st m es).chunks = st.chunks ∧
      (resolveParentsLoop st m es).files = st.files ∧
      (resolveParentsLoop st m es).nextEntityId = st.nextEntityId ∧
      (resolveParentsLoop st m es).nextRelationshipId = st.nextRelationshipId ∧
      (resolveParentsLoop st m es).nextChunkId = st.nextChunkId ∧
      (resolveParentsLoop st m es).entities.map (fun e => (e.id, entityData e)) =
        st.entities.map (fun e => (e.id, entityData e)) := by
  intro es
  induction es with
  | nil =>
    intro st
    simp [resolveParentsLoop]
  | cons e rest ih =>
    intro st
    rw [resolveParentsLoop]
    generalize hst1 : (match rsplitColonColon e.qualified_name with
      | none => st
      | some (parent_name, _) =>
        match lookupName m parent_name, lookupName m e.qualified_name with
        | some pid, some eid => { st with entities := setParent st.entities eid pid }
        | _, _ => st) = st1
    have hframe : st1.relationships = st.relationships ∧ st1.chunks = st.chunks ∧
        st1.files = st.files ∧ st1.nextEntityId = st.nextEntityId ∧
        st1.nextRelationshipId = st.nextRelationshipId ∧
        st1.nextChunkId = st.nextChunkId ∧
        st1.entities.map (fun e => (e.id, entityData e)) =
          st.entities.map (fun e => (e.id, entityData e)) := by
      rw [← hst1]
      split
      · exact ⟨rfl, rfl, rfl, rfl, rfl, rfl, rfl⟩
      · split
        · exact ⟨rfl, rfl, rfl, rfl, rfl, rfl, setParent_shape _ _ _⟩
        · exact ⟨rfl, rfl, rfl, rfl, rfl, rfl, rfl⟩
    have h := ih st1
    exact ⟨h.1.trans hframe.1, h.2.1.trans hframe.2.1, h.2.2.1.trans hframe.2.2.1,
      h.2.2.2.1.trans hframe.2.2.2.1, h.2.2.2.2.1.trans hframe.2.2.2.2.1,
      h.2.2.2.2.2.1.trans hframe.2.2.2.2.2.1, h.2.2.2.2.2.2.trans hframe.2.2.2.2.2.2⟩

theorem insert_chunk_ok (embed : String → Except Unit (List Int)) (st : Store)
    (ch : CodeChunk) (m : List (String × Nat)) (fid : Nat) (st1 : Store)
    (h : insert_chunk embed st ch m fid = .ok st1) :
    st1.entities = st.entities ∧ st1.relationships = st.relationships ∧
    st1.files = st.files ∧ st1.nextEntityId = st.nextEntityId ∧
    st1.nextRelationshipId = st.nextRelationshipId ∧
    st.chunks <+: st1.chunks := by
  unfold insert_chunk at h
  cases hemb : embed ch.content with
  | error e => rw [hemb] at h; simp at h
  | ok v =>
    rw [hemb] at h
    simp only [Except.ok.injEq] at h
    subst h
    exact ⟨rfl, rfl, rfl, rfl, rfl, ⟨_, rfl⟩⟩

theorem insertChunksLoop_ok (embed : String → Except Unit (List Int))
    (m : List (String × Nat)) (fid : Nat) :
    ∀ (cs : List CodeChunk) (st st2 : Store),
      insertChunksLoop embed st m fid cs = .ok st2 →
      st2.entities = st.entities ∧ st2.relationships = st.relationships ∧
      st2.files = st.files ∧ st2.nextEntityId = st.nextEntityId ∧
      st2.nextRelationshipId = st.nextRelationshipId ∧
      st.chunks <+: st2.chunks := by
  intro cs
  induction cs with
  | nil =>
    intro st st2 h
    rw [insertChunksLoop] at h
    simp only [Except.ok.injEq] at h
    subst h
    exact ⟨rfl, rfl, rfl, rfl, rfl, List.prefix_refl _⟩
  | cons ch rest ih =>
    intro st st2 h
    rw [insertChunksLoop] at h
    cases hc : insert_chunk embed st ch m fid with
    | error e => rw [hc] at h; simp at h
    | ok st1 =>
      rw [hc] at h
      have h2 := ih st1 st2 h
      have h1 := insert_chunk_ok embed st ch m fid st1 hc
      exact ⟨h2.1.trans h1.1, h2.2.1.trans h1.2.1, h2.2.2.1.trans h1.2.2.1,
        h2.2.2.2.1.trans h1.2.2.2.1, h2.2.2.2.2.1.trans h1.2.2.2.2.1,
        h1.2.2.2.2.2.trans h2.2.2.2.2.2⟩

theorem insertChunksLoop_error_of_embed_error (embed : String → Except Unit (List Int))
    (m : List (String × Nat)) (fid : Nat) :
    ∀ (cs : List CodeChunk) (st : Store),
      (∃ ch ∈ cs, ∃ e, embed ch.content = .error e) →
      ∃ e, insertChunksLoop embed st m fid cs = .error e := by
  intro cs
  induction cs with
  | nil =>
    intro st h
    obtain ⟨ch, hch, _⟩ := h
    simp at hch
  | cons ch rest ih =>
    intro st h
    rw [insertChunksLoop]
    cases hemb : embed ch.content with
    | error e =>
      have : insert_chunk embed st ch m fid = .error e := by
        unfold insert_chunk
        rw [hemb]
      rw [this]
      exact ⟨e, rfl⟩
    | ok v =>
      obtain ⟨ch2, hch2, e2, hch2e⟩ := h
      rcases List.mem_cons.mp hch2 with hh | hh
      · subst hh
        rw [hch2e] at hemb
        simp at hemb
      · cases hc : insert_chunk embed st ch m fid with
        | error e3 => exact ⟨e3, rfl⟩
        | ok st1 => exact ih st1 ⟨ch2, hh, e2, hch2e⟩

theorem insertChunksLoop_ok_of_embed_total (embed : String → Except Unit (List Int))
    (m : List (String × Nat)) (fid : Nat) (htot : ∀ s, (embed s).isOk = true) :
    ∀ (cs : List CodeChunk) (st : Store),
      ∃ st2, insertChunksLoop embed st m fid cs = .ok st2 := by
  intro cs
  induction cs with
  | nil => intro st; exact ⟨st, rfl⟩
  | cons ch rest ih =>
    intro st
    rw [insertChunksLoop]
    cases hemb : embed ch.content with
    | error e =>
      have := htot ch.content
      rw [hemb] at this
      simp [Except.isOk, Except.toBool] at this
    | ok v =>
      cases hc : insert_chunk embed st ch m fid with
      | error e =>
        unfold insert_chunk at hc
        rw [hemb] at hc
        simp at hc
      | ok st1 => exact ih st1

theorem updateFileStatus_frame (st : Store) (fid : Nat) :
    (updateFileStatus st fid).entities = st.entities ∧
    (updateFileStatus st fid).relationships = st.relationships ∧
    (updateFileStatus st fid).chunks = st.chunks ∧
    (updateFileStatus st fid).nextEntityId = st.nextEntityId ∧
    (updateFileStatus st fid).nextRelationshipId = st.nextRelationshipId ∧
    (updateFileStatus st fid).nextChunkId = st.nextChunkId := by
  unfold updateFileStatus
  exact ⟨rfl, rfl, rfl, rfl, rfl, rfl⟩

theorem deleteFileEntities_invariant (st : Store) (fid : Nat)
    (hinv : relEndpointsExist st) :
    relEndpointsExist (deleteFileEntities st fid) := by
  intro r hr
  unfold deleteFileEntities at hr
  simp only [List.mem_filter] at hr
  obtain ⟨hrmem, hrcond⟩ := hr
  rw [Bool.and_eq_true] at hrcond
  obtain ⟨hf, ht⟩ := hrcond
  obtain ⟨⟨ef, hef, hefid⟩, ⟨et, het, hetid⟩⟩ := hinv r hrmem
  constructor
  · refine ⟨ef, ?_, hefid⟩
    unfold deleteFileEntities
    simp only [List.mem_filter]
    refine ⟨hef, ?_⟩
    simp only [Bool.not_eq_true']
    by_contra hcon
    simp only [Bool.not_eq_false] at hcon
    simp at hf
    exact hf ef hef (by simpa using hcon) hefid
  · refine ⟨et, ?_, hetid⟩
    unfold deleteFileEntities
    simp only [List.mem_filter]
    refine ⟨het, ?_⟩
    simp only [Bool.not_eq_true']
    by_contra hcon
    simp only [Bool.not_eq_false] at hcon
    simp at ht
    exact ht et het (by simpa using hcon) hetid

theorem simpleChunkInsertLoop_frame (embed : String → Except Unit (List Int))
    (fid : Nat) (lines : List String) :
    ∀ (idxs : List Nat) (st : Store),
      (simpleChunkInsertLoop embed fid lines st idxs).entities = st.entities ∧
      (simpleChunkInsertLoop embed fid lines st idxs).relationships = st.relationships := by
  intro idxs
  induction idxs with
  | nil => intro st; exact ⟨rfl, rfl⟩
  | cons i rest ih =>
    intro st
    rw [simpleChunkInsertLoop]
    split
    · exact ih st
    · cases hemb : embed (joinNewline ((lines.drop i).take 100)) with
      | error e => exact ⟨rfl, rfl⟩
      | ok v => exact ih _

theorem entityIdPresent_iff_mem_map (st : Store) (i : Nat) :
    entityIdPresent st i ↔ i ∈ st.entities.map (fun e => e.id) := by
  unfold entityIdPresent
  simp only [List.mem_map]

theorem relEndpointsExist_transport {st st' : Store}
    (hrels : st'.relationships = st.relationships)
    (hent : ∀ i, entityIdPresent st i → entityIdPresent st' i)
    (h : relEndpointsExist st) : relEndpointsExist st' := by
  intro r hr
  rw [hrels] at hr
  obtain ⟨⟨ef, hef, hefid⟩, ⟨et, het, hetid⟩⟩ := h r hr
  exact ⟨hent r.from_entity_id ⟨ef, hef, hefid⟩, hent r.to_entity_id ⟨et, het, hetid⟩⟩

theorem namePairs_ids (fid : Nat) :
    ∀ (es : List Entity) (start : Nat) (p : String × Nat),
      p ∈ namePairs start es → ∃ e ∈ newStored start fid es, e.id = p.2 := by
  intro es
  induction es with
  | nil => intro start p hp; simp [namePairs] at hp
  | cons e rest ih =>
    intro start p hp
    rw [namePairs] at hp
    rcases List.mem_cons.mp hp with hh | hh
    · subst hh
      exact ⟨storedOf start fid e, by simp [newStored], rfl⟩
    · obtain ⟨e2, he2, hid⟩ := ih (start + 1) p hh
      exact ⟨e2, by simp [newStored, he2], hid⟩

/-! ## Claim C1 -/

/-- C1: `index_file` preserves the invariant that every persisted
relationship references existing entities on both sides, provided the
run-wide cache only maps names to existing entities of other files (the
map-then-cache-then-simple-name resolution only yields such ids); include
edges are never persisted; an edge whose `from` endpoint resolves against
neither the file-scoped map nor the run-wide cache is dropped — and every
edge produced by the relationship pass (every call edge in particular)
carries the empty `from` endpoint the parser leaves unassigned. -/
theorem c1_relationship_resolution
    (embed : String → Except Unit (List Int))
    (parsed : Except Unit (List Entity × List Relationship × List CodeChunk))
    (fid : Nat) (content : String) (st : Store) (cache : List (String × Nat))
    (hinv : relEndpointsExist st)
    (hcache : ∀ p ∈ cache, ∃ e ∈ st.entities, e.id = p.2 ∧ ¬ e.file_id = fid) :
    relEndpointsExist (index_file embed parsed fid content st cache).1 ∧
    (∀ (st2 : Store) (rel : Relationship) (m c : List (String × Nat)),
      rel.relationship_type = "includes" → insert_relationship st2 rel m c = st2) ∧
    (∀ (st2 : Store) (rel : Relationship) (m c : List (String × Nat)),
      lookupName m rel.from_entity = none → lookupName c rel.from_entity = none →
      insert_relationship st2 rel m c = st2) ∧
    (∀ t : TSNode, ∀ r ∈ extract_relationships t,
      r.from_entity = "" ∧ (r.relationship_type = "includes" ∨ r.relationship_type = "calls")) := by
  refine ⟨?_, insert_relationship_includes, insert_relationship_unresolved_from,
    extract_relationships_facts.1⟩
  cases parsed with
  | error e =>
    rw [index_file]
    have hframe := simpleChunkInsertLoop_frame embed fid (pySplitlines content)
      (fallbackWindowIndexes (pySplitlines content).length) st
    refine relEndpointsExist_transport hframe.2 ?_ hinv
    intro i hi
    rw [entityIdPresent_iff_mem_map] at hi ⊢
    rw [show (simple_file_indexing embed fid content st).entities = st.entities from hframe.1]
    exact hi
  | ok parsed0 =>
    obtain ⟨es, rs, cs⟩ := parsed0
    rw [index_file]
    obtain ⟨h1, h2, h3, h4, h5, h6, h7, h8, h9⟩ :=
      insertEntitiesLoop_spec fid es (deleteFileEntities st fid) [] cache
    generalize hr0 : insertEntitiesLoop (deleteFileEntities st fid) fid [] cache es = r0 at *
    obtain ⟨p1, p2, p3, p4, p5, p6, p7⟩ := resolveParentsLoop_spec r0.2.1 es r0.1
    generalize hst3 : resolveParentsLoop r0.1 r0.2.1 es = st3 at *
    have hframe4 := insertRelationshipsLoop_frame r0.2.1 r0.2.2 rs st3
    have hendp4 := insertRelationshipsLoop_endpoints r0.2.1 r0.2.2 rs st3
    generalize hst4 : insertRelationshipsLoop st3 r0.2.1 r0.2.2 rs = st4 at *
    -- presence transport lemmas
    have hpres2 : ∀ i, entityIdPresent (deleteFileEntities st fid) i → entityIdPresent r0.1 i := by
      intro i hi
      rw [entityIdPresent_iff_mem_map] at hi ⊢
      rw [h1]
      simp only [List.map_append, List.mem_append]
      exact Or.inl hi
    have hpres3 : ∀ i, entityIdPresent r0.1 i → entityIdPresent st3 i := by
      intro i hi
      rw [entityIdPresent_iff_mem_map] at hi ⊢
      have hmapeq : st3.entities.map (fun e => e.id) = r0.1.entities.map (fun e => e.id) := by
        have := congrArg (List.map Prod.fst) p7
        simpa [List.map_map, Function.comp] using this
      rw [hmapeq]
      exact hi
    have hnew : ∀ i, (∃ e2 ∈ newStored (deleteFileEntities st fid).nextEntityId fid es, e2.id = i) →
        entityIdPresent r0.1 i := by
      intro i hi
      obtain ⟨e2, he2, hid⟩ := hi
      rw [entityIdPresent_iff_mem_map, h1]
      simp only [List.map_append, List.mem_append, List.mem_map]
      exact Or.inr ⟨e2, he2, hid⟩
    have hinv3 : relEndpointsExist st3 :=
      relEndpointsExist_transport (p1.trans h3)
        (fun i hi => hpres3 i (hpres2 i hi))
        (deleteFileEntities_invariant st fid hinv)
    have hmapid : ∀ (i : Nat), (∃ p ∈ r0.2.1, p.2 = i) → entityIdPresent st3 i := by
      intro i hp
      obtain ⟨p, hpmem, hpi⟩ := hp
      rw [h8] at hpmem
      simp only [List.mem_append, List.mem_reverse] at hpmem
      rcases hpmem with hpmem | hpmem
      · obtain ⟨e2, he2, hid⟩ := namePairs_ids fid es _ p hpmem
        exact hpres3 i (hnew i ⟨e2, he2, hid.trans hpi⟩)
      · simp at hpmem
    have hcacheid : ∀ (i : Nat), (∃ p ∈ r0.2.2, p.2 = i) → entityIdPresent st3 i := by
      intro i hp
      obtain ⟨p, hpmem, hpi⟩ := hp
      rw [h9] at hpmem
      simp only [List.mem_append, List.mem_reverse] at hpmem
      rcases hpmem with hpmem | hpmem
      · obtain ⟨e2, he2, hid⟩ := namePairs_ids fid es _ p hpmem
        exact hpres3 i (hnew i ⟨e2, he2, hid.trans hpi⟩)
      · obtain ⟨e2, he2, hid, hfile⟩ := hcache p hpmem
        apply hpres3
        apply hpres2
        refine ⟨e2, ?_, hpi ▸ hid⟩
        unfold deleteFileEntities
        simp only [List.mem_filter]
        exact ⟨he2, by simpa using hfile⟩
    have hinv4 : relEndpointsExist st4 := by
      intro r2 hr2
      rcases hendp4 r2 hr2 with hold | ⟨hfm, hto⟩
      · obtain ⟨⟨ef, hef, hefid⟩, ⟨et, het, hetid⟩⟩ := hinv3 r2 hold
        rw [← hframe4.1] at hef het
        exact ⟨⟨ef, hef, hefid⟩, ⟨et, het, hetid⟩⟩
      · have hfromPres : entityIdPresent st3 r2.from_entity_id := by
          rcases hfm with h | h
          · exact hmapid _ h
          · exact hcacheid _ h
        have htoPres : entityIdPresent st3 r2.to_entity_id := by
          rcases hto with h | h | h
          · exact hmapid _ h
          · exact hcacheid _ h
          · exact h
        obtain ⟨ef, hef, hefid⟩ := hfromPres
        obtain ⟨et, het, hetid⟩ := htoPres
        rw [← hframe4.1] at hef het
        exact ⟨⟨ef, hef, hefid⟩, ⟨et, het, hetid⟩⟩
    cases hch : insertChunksLoop embed st4 r0.2.1 fid cs with
    | error e2 =>
      exact hinv
    | ok st5 =>
      obtain ⟨d1, d2, d3, d4, d5, d6⟩ := insertChunksLoop_ok embed r0.2.1 fid cs st4 st5 hch
      have huf := updateFileStatus_frame st5 fid
      refine relEndpointsExist_transport (huf.2.1.trans d2) ?_ hinv4
      intro i hi
      rw [entityIdPresent_iff_mem_map] at hi ⊢
      rw [huf.1, d1]
      exact hi

/-- Witness for C1: indexing the example parse into a store holding prior
data for another file, with a cache entry pointing at that other file's
entity, keeps every persisted relationship endpoint resolvable. -/
theorem c1_witness :
    relEndpointsExist (index_file embed1 (.ok (parse_file egContent egTree)) 9
      egContent priorStore [("old", 1)]).1 :=
  (c1_relationship_resolution embed1 (.ok (parse_file egContent egTree)) 9
    egContent priorStore [("old", 1)]
    (by intro r hr; simp [priorStore] at hr)
    (by
      intro p hp
      simp only [List.mem_singleton] at hp
      subst hp
      exact ⟨priorStore.entities.head (by decide), by decide, by decide, by decide⟩)).1

/-! ## Claim C3 -/

/-- Counterexample to C3 as stated: with prior rows present for the file, a
parse failure runs the fallback path, which deletes nothing and appends a
chunk outside any transaction — so neither "all prior rows replaced" nor
"store unchanged" holds. -/
theorem c3_counterexample : ¬ c3ClaimAt embed1 (.error ()) 7 longLine priorStore [] := by
  unfold c3ClaimAt
  decide

theorem newStored_facts (fid : Nat) :
    ∀ (es : List Entity) (start : Nat),
      (∀ e2 ∈ newStored start fid es, start ≤ e2.id ∧ (entityData e2).file_id = fid) ∧
      (newStored start fid es).map entityData = es.map (parsedEntityData fid) := by
  intro es
  induction es with
  | nil => intro start; simp [newStored]
  | cons e rest ih =>
    intro start
    constructor
    · intro e2 he2
      rw [newStored] at he2
      rcases List.mem_cons.mp he2 with hh | hh
      · subst hh
        exact ⟨Nat.le_refl _, rfl⟩
      · have := (ih (start + 1)).1 e2 hh
        exact ⟨by omega, this.2⟩
    · rw [newStored]
      simp only [List.map_cons]
      rw [(ih (start + 1)).2]
      rfl

theorem filter_pairs_eq (fid : Nat) (l : List StoredEntity) :
    (l.filter (fun e => e.file_id == fid)).map entityData =
      ((l.map (fun e => (e.id, entityData e))).filter
        (fun q => q.2.file_id == fid)).map Prod.snd := by
  induction l with
  | nil => rfl
  | cons e rest ih =>
    simp only [List.map_cons, List.filter_cons]
    by_cases h : (e.file_id == fid) = true
    · have h2 : ((entityData e).file_id == fid) = true := h
      rw [if_pos h, if_pos h2]
      simp only [List.map_cons]
      rw [ih]
    · have h2 : ¬ ((entityData e).file_id == fid) = true := h
      rw [if_neg h, if_neg h2]
      exact ih

theorem filter_pairs_ne (fid : Nat) (l : List StoredEntity) :
    (l.filter (fun e => !(e.file_id == fid))).map (fun e => (e.id, entityData e)) =
      (l.map (fun e => (e.id, entityData e))).filter
        (fun q => !(q.2.file_id == fid)) := by
  induction l with
  | nil => rfl
  | cons e rest ih =>
    simp only [List.map_cons, List.filter_cons]
    by_cases h : (!(e.file_id == fid)) = true
    · have h2 : (!((entityData e).file_id == fid)) = true := h
      rw [if_pos h, if_pos h2]
      simp only [List.map_cons]
      rw [ih]
    · have h2 : ¬ (!((entityData e).file_id == fid)) = true := h
      rw [if_neg h, if_neg h2]
      exact ih

theorem simpleChunkInsertLoop_chunks_prefix (embed : String → Except Unit (List Int))
    (fid : Nat) (lines : List String) :
    ∀ (idxs : List Nat) (st : Store),
      st.chunks <+: (simpleChunkInsertLoop embed fid lines st idxs).chunks := by
  intro idxs
  induction idxs with
  | nil => intro st; exact List.prefix_refl _
  | cons i rest ih =>
    intro st
    rw [simpleChunkInsertLoop]
    split
    · exact ih st
    · cases hemb : embed (joinNewline ((lines.drop i).take 100)) with
      | error e => exact List.prefix_refl _
      | ok v =>
        refine List.IsPrefix.trans ?_ (ih _)
        exact ⟨_, rfl⟩

/-- C3 amended: the parse-success path is transactional — if any chunk
embedding fails the store reverts unchanged, and if every embedding
succeeds, every entity the file then has in the store is freshly inserted
(all prior rows of the file having been deleted with their relationships
and entity-linked chunks cascaded), the file's stored entity set equals
exactly the parsed set, and other files' entities keep their ids and data.
The parse-failure fallback path, however, is NOT atomic: it deletes
nothing — prior entities and relationships of the file survive — and
appends fallback chunks outside any transaction. -/
theorem c3_index_file_transactionality
    (embed : String → Except Unit (List Int)) (fid : Nat) (content : String)
    (st : Store) (cache : List (String × Nat))
    (es : List Entity) (rs : List Relationship) (cs : List CodeChunk) :
    ((∃ ch ∈ cs, ∃ er, embed ch.content = .error er) →
      (index_file embed (.ok (es, rs, cs)) fid content st cache).1 = st) ∧
    ((∀ s, (embed s).isOk = true) →
      (∀ e ∈ (index_file embed (.ok (es, rs, cs)) fid content st cache).1.entities,
        e.file_id = fid → st.nextEntityId ≤ e.id) ∧
      ((index_file embed (.ok (es, rs, cs)) fid content st cache).1.entities.filter
        (fun e => e.file_id == fid)).map entityData = es.map (parsedEntityData fid) ∧
      ((index_file embed (.ok (es, rs, cs)) fid content st cache).1.entities.filter
        (fun e => !(e.file_id == fid))).map (fun e => (e.id, entityData e)) =
        (st.entities.filter (fun e => !(e.file_id == fid))).map
          (fun e => (e.id, entityData e))) ∧
    ((index_file embed (.error ()) fid content st cache).1.entities = st.entities ∧
     (index_file embed (.error ()) fid content st cache).1.relationships = st.relationships ∧
     st.chunks <+: (index_file embed (.error ()) fid content st cache).1.chunks) := by
  refine ⟨?_, ?_, ?_⟩
  · -- embed failure aborts the transaction
    intro hfail
    rw [index_file]
    generalize insertEntitiesLoop (deleteFileEntities st fid) fid [] cache es = r0
    generalize resolveParentsLoop r0.1 r0.2.1 es = st3
    generalize insertRelationshipsLoop st3 r0.2.1 r0.2.2 rs = st4
    obtain ⟨er2, herr⟩ :=
      insertChunksLoop_error_of_embed_error embed r0.2.1 fid cs st4 hfail
    rw [herr]
  · -- all embeds succeed: the replace commits and is complete
    intro htot
    rw [index_file]
    obtain ⟨h1, h2, h3, h4, h5, h6, h7, h8, h9⟩ :=
      insertEntitiesLoop_spec fid es (deleteFileEntities st fid) [] cache
    generalize hr0 : insertEntitiesLoop (deleteFileEntities st fid) fid [] cache es = r0 at *
    have hdid : (deleteFileEntities st fid).nextEntityId = st.nextEntityId := rfl
    rw [hdid] at h1
    obtain ⟨p1, p2, p3, p4, p5, p6, p7⟩ := resolveParentsLoop_spec r0.2.1 es r0.1
    generalize hst3 : resolveParentsLoop r0.1 r0.2.1 es = st3 at *
    have hframe4 := insertRelationshipsLoop_frame r0.2.1 r0.2.2 rs st3
    generalize hst4 : insertRelationshipsLoop st3 r0.2.1 r0.2.2 rs = st4 at *
    cases hch : insertChunksLoop embed st4 r0.2.1 fid cs with
    | error e2 =>
      obtain ⟨st5, hok⟩ := insertChunksLoop_ok_of_embed_total embed r0.2.1 fid htot cs st4
      rw [hok] at hch
      simp at hch
    | ok st5 =>
      obtain ⟨d1, d2, d3, d4, d5, d6⟩ := insertChunksLoop_ok embed r0.2.1 fid cs st4 st5 hch
      have huf := updateFileStatus_frame st5 fid
      have hpairs : (updateFileStatus st5 fid).entities.map (fun e => (e.id, entityData e)) =
          ((deleteFileEntities st fid).entities ++
            newStored st.nextEntityId fid es).map (fun e => (e.id, entityData e)) := by
        rw [huf.1, d1, hframe4.1, p7, h1]
      refine ⟨?_, ?_, ?_⟩
      · -- every entity of the file is new
        intro e he hefid
        have hmem : (e.id, entityData e) ∈
            ((deleteFileEntities st fid).entities ++
              newStored st.nextEntityId fid es).map (fun e => (e.id, entityData e)) := by
          rw [← hpairs]
          exact List.mem_map_of_mem _ he
        simp only [List.map_append, List.mem_append, List.mem_map] at hmem
        rcases hmem with ⟨e0, he0, heq⟩ | ⟨e0, he0, heq⟩
        · exfalso
          unfold deleteFileEntities at he0
          simp only [List.mem_filter] at he0
          have hfd : e0.file_id = e.file_id := by
            have := congrArg (fun q => q.2.file_id) heq
            simpa [entityData] using this
          have hbad : e0.file_id = fid := by rw [hfd, hefid]
          simp [hbad] at he0
        · have hfacts := (newStored_facts fid es st.nextEntityId).1 e0 he0
          have hid : e0.id = e.id := by
            have := congrArg Prod.fst heq
            simpa using this
          omega
      · -- the file's stored entity set equals the parsed set
        rw [filter_pairs_eq, hpairs]
        simp only [List.map_append, List.filter_append]
        have hdel : (((deleteFileEntities st fid).entities.map
            (fun e => (e.id, entityData e))).filter (fun q => q.2.file_id == fid)) = [] := by
          rw [List.filter_eq_nil_iff]
          intro q hq
          simp only [List.mem_map] at hq
          obtain ⟨e0, he0, heq⟩ := hq
          unfold deleteFileEntities at he0
          simp only [List.mem_filter] at he0
          subst heq
          simpa [entityData] using he0.2
        have hnew : (((newStored st.nextEntityId fid es).map
            (fun e => (e.id, entityData e))).filter (fun q => q.2.file_id == fid)) =
            (newStored st.nextEntityId fid es).map (fun e => (e.id, entityData e)) := by
          rw [List.filter_eq_self]
          intro q hq
          simp only [List.mem_map] at hq
          obtain ⟨e0, he0, heq⟩ := hq
          subst heq
          simpa using ((newStored_facts fid es st.nextEntityId).1 e0 he0).2
        rw [hdel, hnew]
        simp only [List.map_nil, List.nil_append]
        rw [List.map_map]
        have hcomp : (Prod.snd ∘ fun e : StoredEntity => (e.id, entityData e)) = entityData := rfl
        rw [hcomp]
        exact (newStored_facts fid es st.nextEntityId).2
      · -- other files' entities keep their ids and data
        rw [filter_pairs_ne, hpairs]
        simp only [List.map_append, List.filter_append]
        have hdel : (((deleteFileEntities st fid).entities.map
            (fun e => (e.id, entityData e))).filter (fun q => !(q.2.file_id == fid))) =
            (deleteFileEntities st fid).entities.map (fun e => (e.id, entityData e)) := by
          rw [List.filter_eq_self]
          intro q hq
          simp only [List.mem_map] at hq
          obtain ⟨e0, he0, heq⟩ := hq
          unfold deleteFileEntities at he0
          simp only [List.mem_filter] at he0
          subst heq
          simpa [entityData] using he0.2
        have hnew : (((newStored st.nextEntityId fid es).map
            (fun e => (e.id, entityData e))).filter (fun q => !(q.2.file_id == fid))) = [] := by
          rw [List.filter_eq_nil_iff]
          intro q hq
          simp only [List.mem_map] at hq
          obtain ⟨e0, he0, heq⟩ := hq
          subst heq
          simpa using ((newStored_facts fid es st.nextEntityId).1 e0 he0).2
        rw [hdel, hnew]
        simp only [List.append_nil]
        rfl
  · -- parse failure: entities and relationships untouched, chunks appended
    rw [index_file]
    have hframe := simpleChunkInsertLoop_frame embed fid (pySplitlines content)
      (fallbackWindowIndexes (pySplitlines content).length) st
    have hpre := simpleChunkInsertLoop_chunks_prefix embed fid (pySplitlines content)
      (fallbackWindowIndexes (pySplitlines content).length) st
    exact ⟨hframe.1, hframe.2, hpre⟩

theorem c3_witness :
    ((index_file (fun _ => (.error () : Except Unit (List Int)))
        (.ok ([], [], [⟨none, "code", "x", 1, 1, ChunkMeta.fallback⟩])) 7 "y"
        priorStore []).1 = priorStore) ∧
    (((index_file embed1 (.ok ([], [], [])) 7 "y" priorStore []).1.entities.filter
        (fun e => e.file_id == 7)).map entityData = List.map (parsedEntityData 7) []) := by
  constructor
  · exact (c3_index_file_transactionality (fun _ => .error ()) 7 "y" priorStore [] [] []
      [⟨none, "code", "x", 1, 1, ChunkMeta.fallback⟩]).1
      ⟨⟨none, "code", "x", 1, 1, ChunkMeta.fallback⟩, List.mem_singleton.mpr rfl, (), rfl⟩
  · exact ((c3_index_file_transactionality embed1 7 "y" priorStore [] [] [] []).2.1
      (fun s => rfl)).2.1

/-! ## Claim C2 groundwork: `"::"`-join/split algebra on colon-free tokens -/

theorem joinColonColon_cons (p : String) (l : List String) (h : l ≠ []) :
    joinColonColon (p :: l) = p ++ "::" ++ joinColonColon l := by
  cases l with
  | nil => exact absurd rfl h
  | cons q rest => rfl

theorem splitOnColonColon_ne_nil : ∀ l : List Char, splitOnColonColon l ≠ [] := by
  intro l
  rw [splitOnColonColon.eq_def]
  split
  · simp
  · simp
  · cases splitOnColonColon _ with
    | nil => simp
    | cons p ps => simp

theorem splitOnColonColon_colonFree :
    ∀ l : List Char, (∀ c ∈ l, ¬ c = ':') → splitOnColonColon l = [l] := by
  intro l
  induction l with
  | nil => intro h; rfl
  | cons c rest ih =>
    intro h
    rw [splitOnColonColon.eq_def]
    split
    · simp_all
    · rename_i heq
      exfalso
      have : c = ':' := by
        have := congrArg (fun x => x.headD ' ') heq
        simpa using this
      exact h c (List.mem_cons_self c rest) this
    · rename_i junk c2 rest2 hne heq
      injection heq with hc hrest
      subst hc
      subst hrest
      rw [ih (fun x hx => h x (List.mem_cons_of_mem c hx))]

theorem splitOnColonColon_sep :
    ∀ p : List Char, (∀ c ∈ p, ¬ c = ':') → ∀ t : List Char,
      splitOnColonColon (p ++ ':' :: ':' :: t) = p :: splitOnColonColon t := by
  intro p
  induction p with
  | nil => intro h t; rfl
  | cons c rest ih =>
    intro h t
    rw [List.cons_append, splitOnColonColon.eq_def]
    split
    · simp_all
    · rename_i heq
      exfalso
      have : c = ':' := by
        have := congrArg (fun x => x.headD ' ') heq
        simpa using this
      exact h c (List.mem_cons_self c rest) this
    · rename_i junk c2 rest2 hne heq
      injection heq with hc hrest
      subst hc
      rw [← hrest, ih (fun x hx => h x (List.mem_cons_of_mem c hx)) t]

theorem getLastD_of_ne_nil {α : Type} (l : List α) (a b : α) (h : l ≠ []) :
    l.getLastD a = l.getLastD b := by
  cases l with
  | nil => exact absurd rfl h
  | cons x xs => rfl

theorem colonFree_chars (s : String) (h : colonFree s = true) : ∀ c ∈ s.data, ¬ c = ':' := by
  intro c hc
  unfold colonFree at h
  rw [List.all_eq_true] at h
  have := h c hc
  simpa using this

theorem lastScopeSegment_join :
    ∀ ns : List String, (∀ x ∈ ns, colonFree x = true) →
      ∀ s : String, colonFree s = true →
        lastScopeSegment (joinColonColon (ns ++ [s])) = s := by
  intro ns
  induction ns with
  | nil =>
    intro _ s hs
    show lastScopeSegment (joinColonColon [s]) = s
    unfold lastScopeSegment
    have hj : joinColonColon [s] = s := rfl
    rw [hj, splitOnColonColon_colonFree s.data (colonFree_chars s hs)]
    rfl
  | cons p rest ih =>
    intro h s hs
    have hp : colonFree p = true := h p (List.mem_cons_self p rest)
    have hrest : rest ++ [s] ≠ [] := by simp
    rw [List.cons_append, joinColonColon_cons p (rest ++ [s]) hrest]
    unfold lastScopeSegment
    have hdata : (p ++ "::" ++ joinColonColon (rest ++ [s])).data =
        p.data ++ ':' :: ':' :: (joinColonColon (rest ++ [s])).data := by
      simp [String.data_append]
    rw [hdata, splitOnColonColon_sep p.data (colonFree_chars p hp)]
    rw [List.getLastD_cons]
    rw [getLastD_of_ne_nil _ _ []
      (splitOnColonColon_ne_nil (joinColonColon (rest ++ [s])).data)]
    exact ih (fun x hx => h x (List.mem_cons_of_mem p hx)) s hs

theorem build_qualified_name_none (ns : List String) (s : String) :
    build_qualified_name ns none s = joinColonColon (ns ++ [s]) := by
  unfold build_qualified_name
  rw [List.append_nil]

theorem build_qualified_name_some (ns : List String) (c s : String) :
    build_qualified_name ns (some c) s = joinColonColon (ns ++ [lastScopeSegment c] ++ [s]) := by
  rfl

/-- The entity traversal computes exactly the lexical nesting path provided
every class/struct body is free of nested scope definitions (`nestOk`) and
every scope name token is colon-free (`namesOk`); the class case threads the
qualified name through `lastScopeSegment`, which the side conditions make
the identity. -/
theorem extract_entities_lexical :
    (∀ n,
      (∀ ns pt, (∀ x ∈ ns, colonFree x = true) → nestOk n = true → namesOk n = true →
        (extract_entities ns none pt n).1.map (fun e => e.qualified_name) = lexNames ns n) ∧
      (∀ ns c pt, scopeFree n = true →
        (extract_entities ns (some c) pt n).1.map (fun e => e.qualified_name) =
          lexNames (ns ++ [lastScopeSegment c]) n)) ∧
    (∀ l,
      ((∀ ns pt, (∀ x ∈ ns, colonFree x = true) → nestOkKids l = true → namesOkKids l = true →
        (extract_entities_list ns none pt l).1.map (fun e => e.qualified_name) = lexKids ns l) ∧
       (∀ ns c pt, scopeFreeKids l = true →
        (extract_entities_list ns (some c) pt l).1.map (fun e => e.qualified_name) =
          lexKids (ns ++ [lastScopeSegment c]) l)) ∧
      ((∀ ns, (∀ x ∈ ns, colonFree x = true) → nestOkKids l = true → namesOkKids l = true →
        (extractBodyKids ns none l).1.map (fun e => e.qualified_name) = lexBodyKids ns l) ∧
       (∀ ns c, (∀ p, l.find? (fun p => p.1 == some "body") = some p → scopeFree p.2 = true) →
        (extractBodyKids ns (some c) l).1.map (fun e => e.qualified_name) =
          lexBodyKids (ns ++ [lastScopeSegment c]) l))) := by
  apply tsInduction
    (fun n =>
      (∀ ns pt, (∀ x ∈ ns, colonFree x = true) → nestOk n = true → namesOk n = true →
        (extract_entities ns none pt n).1.map (fun e => e.qualified_name) = lexNames ns n) ∧
      (∀ ns c pt, scopeFree n = true →
        (extract_entities ns (some c) pt n).1.map (fun e => e.qualified_name) =
          lexNames (ns ++ [lastScopeSegment c]) n))
    (fun l =>
      ((∀ ns pt, (∀ x ∈ ns, colonFree x = true) → nestOkKids l = true → namesOkKids l = true →
        (extract_entities_list ns none pt l).1.map (fun e => e.qualified_name) = lexKids ns l) ∧
       (∀ ns c pt, scopeFreeKids l = true →
        (extract_entities_list ns (some c) pt l).1.map (fun e => e.qualified_name) =
          lexKids (ns ++ [lastScopeSegment c]) l)) ∧
      ((∀ ns, (∀ x ∈ ns, colonFree x = true) → nestOkKids l = true → namesOkKids l = true →
        (extractBodyKids ns none l).1.map (fun e => e.qualified_name) = lexBodyKids ns l) ∧
       (∀ ns c, (∀ p, l.find? (fun p => p.1 == some "body") = some p → scopeFree p.2 = true) →
        (extractBodyKids ns (some c) l).1.map (fun e => e.qualified_name) =
          lexBodyKids (ns ++ [lastScopeSegment c]) l)))
  · intro ty tx sr er ch hq
    obtain ⟨⟨hSP, hSR⟩, hBP, hBR⟩ := hq
    constructor
    · -- cls = none, guarded by nestOk/namesOk
      intro ns pt hns hnest hnames
      simp only [extract_entities, lexNames]
      by_cases h1 : (ty == "namespace_definition") = true
      · simp only [if_pos h1]
        cases hname : childByField "name" (TSNode.mk ty tx sr er ch) with
        | none => rfl
        | some nameNode =>
          simp only [nestOk] at hnest
          rw [Bool.and_eq_true] at hnest
          simp only [namesOk] at hnames
          rw [Bool.and_eq_true] at hnames
          have hcondN : ((ty == "namespace_definition" || ty == "class_specifier")
              || ty == "struct_specifier") = true := by
            rw [h1]; simp
          rw [if_pos hcondN, hname] at hnames
          apply hBP
          · intro x hx
            rcases List.mem_append.mp hx with hx | hx
            · exact hns x hx
            · rw [List.mem_singleton.mp hx]; exact hnames.1
          · exact hnest.2
          · exact hnames.2
      · simp only [if_neg h1]
        by_cases h2 : (ty == "class_specifier" || ty == "struct_specifier") = true
        · simp only [if_pos h2]
          cases hname : childByField "name" (TSNode.mk ty tx sr er ch) with
          | none => rfl
          | some nameNode =>
            simp only [nestOk] at hnest
            rw [Bool.and_eq_true, if_pos h2] at hnest
            simp only [namesOk] at hnames
            rw [Bool.and_eq_true] at hnames
            have hcondN : ((ty == "namespace_definition" || ty == "class_specifier")
                || ty == "struct_specifier") = true := by
              rw [Bool.or_assoc, h2, Bool.or_true]
            rw [if_pos hcondN, hname] at hnames
            have hcolon : colonFree nameNode.text = true := hnames.1
            have hscope : ∀ p, ch.find? (fun p => p.1 == some "body") = some p →
                scopeFree p.2 = true := by
              intro p hp
              have hcb : childByField "body" (TSNode.mk ty tx sr er ch) = some p.2 := by
                unfold childByField
                rw [TSNode.kids_mk, hp]
                rfl
              rw [hcb] at hnest
              exact hnest.1
            have htail := hBR ns (build_qualified_name ns none nameNode.text) hscope
            have hlss : lastScopeSegment (build_qualified_name ns none nameNode.text) =
                nameNode.text := by
              rw [build_qualified_name_none]
              exact lastScopeSegment_join ns hns nameNode.text hcolon
            rw [hlss] at htail
            simp only [List.map_cons]
            rw [htail, build_qualified_name_none]
        · simp only [if_neg h2]
          by_cases h3 : (ty == "function_definition" || ty == "function_declarator") = true
          · simp only [if_pos h3]
            cases hdecl : (if (ty == "function_declarator") = true
                then some (TSNode.mk ty tx sr er ch)
                else childByField "declarator" (TSNode.mk ty tx sr er ch)) with
            | none => rfl
            | some d =>
              dsimp only
              cases hfn : get_function_name_node d with
              | none => rfl
              | some nameNode =>
                simp only [List.map_cons, List.map_nil]
                rw [build_qualified_name_none]
          · simp only [if_neg h3]
            by_cases h4 : (ty == "enum_specifier") = true
            · simp only [if_pos h4]
              cases hname : childByField "name" (TSNode.mk ty tx sr er ch) with
              | none => rfl
              | some nameNode =>
                simp only [List.map_cons, List.map_nil]
                rw [build_qualified_name_none]
            · simp only [if_neg h4]
              simp only [nestOk] at hnest
              rw [Bool.and_eq_true] at hnest
              simp only [namesOk] at hnames
              rw [Bool.and_eq_true] at hnames
              exact hSP ns (some ty) hns hnest.2 hnames.2
    · -- cls = some c, guarded by scopeFree
      intro ns c pt hsf
      simp only [scopeFree] at hsf
      rw [Bool.and_eq_true] at hsf
      have hsf1 := hsf.1
      rw [Bool.not_eq_true'] at hsf1
      have hno1 : (ty == "namespace_definition") = false := by
        cases hh : (ty == "namespace_definition") <;> simp_all
      have hno2 : (ty == "class_specifier" || ty == "struct_specifier") = false := by
        cases hh : (ty == "class_specifier" || ty == "struct_specifier") <;> simp_all
      have hn1 : ¬ ((ty == "namespace_definition") = true) := by simp [hno1]
      have hn2 : ¬ ((ty == "class_specifier" || ty == "struct_specifier") = true) := by
        simp [hno2]
      simp only [extract_entities, lexNames]
      simp only [if_neg hn1, if_neg hn2]
      by_cases h3 : (ty == "function_definition" || ty == "function_declarator") = true
      · simp only [if_pos h3]
        cases hdecl : (if (ty == "function_declarator") = true
            then some (TSNode.mk ty tx sr er ch)
            else childByField "declarator" (TSNode.mk ty tx sr er ch)) with
        | none => rfl
        | some d =>
          dsimp only
          cases hfn : get_function_name_node d with
          | none => rfl
          | some nameNode =>
            simp only [List.map_cons, List.map_nil]
            rw [build_qualified_name_some]
      · simp only [if_neg h3]
        by_cases h4 : (ty == "enum_specifier") = true
        · simp only [if_pos h4]
          cases hname : childByField "name" (TSNode.mk ty tx sr er ch) with
          | none => rfl
          | some nameNode =>
            simp only [List.map_cons, List.map_nil]
            rw [build_qualified_name_some]
        · simp only [if_neg h4]
          exact hSR ns c (some ty) hsf.2
  · refine ⟨⟨?_, ?_⟩, ?_, ?_⟩
    · intro ns pt hns hnest hnames; rfl
    · intro ns c pt hsf; rfl
    · intro ns hns hnest hnames; rfl
    · intro ns c hb; rfl
  · intro tag ty tx sr er kids rest hp hqkids hqrest
    refine ⟨⟨?_, ?_⟩, ?_, ?_⟩
    · intro ns pt hns hnest hnames
      simp only [nestOkKids] at hnest
      rw [Bool.and_eq_true] at hnest
      simp only [namesOkKids] at hnames
      rw [Bool.and_eq_true] at hnames
      simp only [extract_entities_list, lexKids, List.map_append]
      rw [hp.1 ns pt hns hnest.1 hnames.1, hqrest.1.1 ns pt hns hnest.2 hnames.2]
    · intro ns c pt hsf
      simp only [scopeFreeKids] at hsf
      rw [Bool.and_eq_true] at hsf
      simp only [extract_entities_list, lexKids, List.map_append]
      rw [hp.2 ns c pt hsf.1, hqrest.1.2 ns c pt hsf.2]
    · intro ns hns hnest hnames
      simp only [nestOkKids] at hnest
      rw [Bool.and_eq_true] at hnest
      simp only [namesOkKids] at hnames
      rw [Bool.and_eq_true] at hnames
      simp only [extractBodyKids, lexBodyKids]
      by_cases htag : (tag == some "body") = true
      · simp only [if_pos htag]
        have hnestk : nestOkKids kids = true := by
          have := hnest.1
          simp only [nestOk] at this
          rw [Bool.and_eq_true] at this
          exact this.2
        have hnamesk : namesOkKids kids = true := by
          have := hnames.1
          simp only [namesOk] at this
          rw [Bool.and_eq_true] at this
          exact this.2
        exact hqkids.1.1 ns (some ty) hns hnestk hnamesk
      · simp only [if_neg htag]
        exact hqrest.2.1 ns hns hnest.2 hnames.2
    · intro ns c hb
      simp only [extractBodyKids, lexBodyKids]
      by_cases htag : (tag == some "body") = true
      · simp only [if_pos htag]
        have hfind : ((tag, TSNode.mk ty tx sr er kids) :: rest).find?
            (fun p => p.1 == some "body") = some (tag, TSNode.mk ty tx sr er kids) :=
          List.find?_cons_of_pos _ htag
        have hsf := hb _ hfind
        simp only [scopeFree] at hsf
        rw [Bool.and_eq_true] at hsf
        exact hqkids.1.2 ns c (some ty) hsf.2
      · simp only [if_neg htag]
        have hstep : List.find? (fun q => q.1 == some "body")
            ((tag, TSNode.mk ty tx sr er kids) :: rest) =
            List.find? (fun q => q.1 == some "body") rest :=
          List.find?_cons_of_neg rest htag
        apply hqrest.2.2 ns c
        intro p hpf
        apply hb
        rw [hstep]
        exact hpf

/-- C2 amended: qualified names equal the lexical nesting path whenever no
namespace/class/struct definition is nested inside a class/struct body and
all scope name tokens are colon-free; determinism is immediate because the
traversal is a pure function of the tree.  (Without the nesting restriction
the claim fails: `_build_qualified_name` keeps only the innermost class
segment, see the counterexample.) -/
theorem c2_amended (n : TSNode) (hnest : nestOk n = true) (hnames : namesOk n = true) :
    c2ClaimAt n := by
  unfold c2ClaimAt
  exact (extract_entities_lexical.1 n).1 [] none (by intro x hx; simp at hx) hnest hnames

theorem c2_witness :
    nestOk egTree = true ∧ namesOk egTree = true ∧ c2ClaimAt egTree :=
  ⟨by decide, by decide, c2_amended egTree (by decide) (by decide)⟩

/-! ## Claim C5 groundwork: id-shift equivariance of the indexing phases -/

theorem lookupName_shiftMap (d : Nat) (m : List (String × Nat)) (k : String) :
    lookupName (shiftMap d m) k = (lookupName m k).map (fun i => i + d) := by
  induction m with
  | nil => rfl
  | cons p rest ih =>
    unfold lookupName shiftMap at *
    simp only [List.map_cons, List.find?_cons]
    by_cases h : (p.1 == k) = true
    · simp only [h]
      rfl
    · have h2 : (p.1 == k) = false := by
        cases hh : (p.1 == k) <;> simp_all
      simp only [h2]
      exact ih

theorem namePairs_shift (d : Nat) :
    ∀ (es : List Entity) (s : Nat), namePairs (s + d) es = shiftMap d (namePairs s es) := by
  intro es
  induction es with
  | nil => intro s; rfl
  | cons e rest ih =>
    intro s
    rw [namePairs, namePairs]
    unfold shiftMap
    simp only [List.map_cons]
    have : s + d + 1 = (s + 1) + d := by omega
    rw [this, ih (s + 1)]
    rfl

theorem newStored_shift (d fid : Nat) :
    ∀ (es : List Entity) (s : Nat),
      newStored (s + d) fid es = (newStored s fid es).map (shiftEntity d) := by
  intro es
  induction es with
  | nil => intro s; rfl
  | cons e rest ih =>
    intro s
    rw [newStored, newStored]
    simp only [List.map_cons]
    have : s + d + 1 = (s + 1) + d := by omega
    rw [this, ih (s + 1)]
    rfl

theorem beq_add_right (a b n : Nat) : (a + n == b + n) = (a == b) := by
  by_cases h : a = b
  · subst h; simp
  · have h2 : ¬ (a + n = b + n) := by omega
    simp [h, h2]

theorem entityName_shift (de : Nat) (l l2 : List StoredEntity) (st st2 : Store)
    (hst : st.entities = l) (hst2 : st2.entities = l2)
    (hl : l2 = l.map (shiftEntity de)) (i : Nat) :
    entityName st2 (i + de) = entityName st i := by
  unfold entityName
  rw [hst, hst2, hl, List.find?_map]
  have hpred : ((fun e => e.id == i + de) ∘ shiftEntity de) = (fun e => e.id == i) := by
    funext e
    simp only [Function.comp, shiftEntity]
    exact beq_add_right e.id i de
  rw [hpred]
  cases l.find? (fun e => e.id == i) with
  | none => rfl
  | some e => rfl

theorem pyTruthy_shift (de : Nat) (o : Option Nat) (h : ∀ i, o = some i → 1 ≤ i) :
    pyTruthy (o.map (fun i => i + de)) = pyTruthy o := by
  cases o with
  | none => rfl
  | some i =>
    have := h i rfl
    simp only [Option.map, pyTruthy]
    have h1 : (i + de != 0) = true := by simp; omega
    have h2 : (i != 0) = true := by simp; omega
    rw [h1, h2]

theorem insertRelationshipsLoop_counter_mono (m c : List (String × Nat)) :
    ∀ (rs : List Relationship) (st : Store),
      st.nextRelationshipId ≤ (insertRelationshipsLoop st m c rs).nextRelationshipId := by
  intro rs
  induction rs with
  | nil => intro st; exact Nat.le_refl _
  | cons r rest ih =>
    intro st
    rw [insertRelationshipsLoop]
    refine Nat.le_trans ?_ (ih (insert_relationship st r m c))
    unfold insert_relationship
    repeat' split
    all_goals try simp
    all_goals split <;> simp

theorem insertChunksLoop_counter_mono (embed : String → Except Unit (List Int))
    (m : List (String × Nat)) (fid : Nat) :
    ∀ (cs : List CodeChunk) (st st2 : Store),
      insertChunksLoop embed st m fid cs = .ok st2 →
      st.nextChunkId ≤ st2.nextChunkId := by
  intro cs
  induction cs with
  | nil =>
    intro st st2 h
    rw [insertChunksLoop] at h
    simp only [Except.ok.injEq] at h
    subst h
    exact Nat.le_refl _
  | cons ch rest ih =>
    intro st st2 h
    rw [insertChunksLoop] at h
    cases hc : insert_chunk embed st ch m fid with
    | error e => rw [hc] at h; simp at h
    | ok st1 =>
      rw [hc] at h
      refine Nat.le_trans ?_ (ih st1 st2 h)
      unfold insert_chunk at hc
      cases hemb : embed ch.content with
      | error e => rw [hemb] at hc; simp at hc
      | ok v =>
        rw [hemb] at hc
        simp only [Except.ok.injEq] at hc
        subst hc
        simp

theorem setParent_shift (de : Nat) (l : List StoredEntity) (eid pid : Nat) :
    setParent (l.map (shiftEntity de)) (eid + de) (pid + de) =
      (setParent l eid pid).map (shiftEntity de) := by
  unfold setParent
  rw [List.map_map, List.map_map]
  have hfun : ((fun e => if e.id == eid + de then { e with parent_id := some (pid + de) } else e)
        ∘ shiftEntity de) =
      (shiftEntity de ∘ fun e => if e.id == eid then { e with parent_id := some pid } else e) := by
    funext e
    simp only [Function.comp, shiftEntity]
    rw [beq_add_right]
    by_cases h : (e.id == eid) = true
    · rw [if_pos h, if_pos h]
      rfl
    · rw [if_neg h, if_neg h]
  rw [hfun]

theorem resolveParentsLoop_shift (de : Nat) (m : List (String × Nat)) :
    ∀ (es : List Entity) (st st2 : Store),
      st2.entities = st.entities.map (shiftEntity de) →
      (resolveParentsLoop st2 (shiftMap de m) es).entities =
        (resolveParentsLoop st m es).entities.map (shiftEntity de) := by
  intro es
  induction es with
  | nil => intro st st2 h; exact h
  | cons e rest ih =>
    intro st st2 h
    rw [resolveParentsLoop, resolveParentsLoop]
    cases hrs : rsplitColonColon e.qualified_name with
    | none => exact ih st st2 h
    | some pr =>
      obtain ⟨pn, tail⟩ := pr
      dsimp only
      rw [lookupName_shiftMap de m pn, lookupName_shiftMap de m e.qualified_name]
      cases hlp : lookupName m pn with
      | none =>
        simp only [Option.map_none']
        exact ih st st2 h
      | some pid =>
        simp only [Option.map_some']
        cases hle : lookupName m e.qualified_name with
        | none =>
          simp only [Option.map_none']
          exact ih st st2 h
        | some eid =>
          simp only [Option.map_some']
          apply ih
          simp only
          rw [h, setParent_shift]

theorem insert_relationship_shift (de dr dc : Nat) (st st2 : Store)
    (m c1 c2 : List (String × Nat)) (rel : Relationship)
    (hR : shiftedData de dr dc st st2)
    (hc1 : ∀ k, lookupName m k = none → lookupName c1 k = none)
    (hc2 : ∀ k, lookupName m k = none → lookupName c2 k = none)
    (hmpos : ∀ p ∈ m, 1 ≤ p.2)
    (hepos : ∀ e ∈ st.entities, 1 ≤ e.id) :
    shiftedData de dr dc (insert_relationship st rel m c1)
      (insert_relationship st2 rel (shiftMap de m) c2) := by
  obtain ⟨hE, hRl, hC, hne, hnr, hnc⟩ := hR
  rw [insert_relationship]
  rw [insert_relationship]
  generalize hF1 : (match lookupName m rel.from_entity with
    | some i => some i
    | none => lookupName c1 rel.from_entity) = F1
  generalize hF2 : (match lookupName (shiftMap de m) rel.from_entity with
    | some i => some i
    | none => lookupName c2 rel.from_entity) = F2
  generalize hT1 : ((match lookupName m rel.to_entity with
    | some i => some i
    | none =>
      match lookupName c1 rel.to_entity with
      | some i => some i
      | none =>
        (st.entities.find? (fun e : StoredEntity =>
          e.simple_name == lastScopeSegment rel.to_entity)).map
            (fun x : StoredEntity => x.id) : Option Nat)) = T1
  generalize hT2 : ((match lookupName (shiftMap de m) rel.to_entity with
    | some i => some i
    | none =>
      match lookupName c2 rel.to_entity with
      | some i => some i
      | none =>
        (st2.entities.find? (fun e : StoredEntity =>
          e.simple_name == lastScopeSegment rel.to_entity)).map
            (fun x : StoredEntity => x.id) : Option Nat)) = T2
  have hfindshift : (st2.entities.find? (fun e : StoredEntity =>
      e.simple_name == lastScopeSegment rel.to_entity)).map (fun x : StoredEntity => x.id) =
      ((st.entities.find? (fun e : StoredEntity =>
        e.simple_name == lastScopeSegment rel.to_entity)).map
          (fun x : StoredEntity => x.id)).map (fun i => i + de) := by
    rw [hE, List.find?_map]
    have hpred : ((fun e : StoredEntity => e.simple_name == lastScopeSegment rel.to_entity)
        ∘ shiftEntity de) =
        (fun e : StoredEntity => e.simple_name == lastScopeSegment rel.to_entity) := by
      funext e
      rfl
    rw [hpred]
    cases st.entities.find? (fun e : StoredEntity =>
        e.simple_name == lastScopeSegment rel.to_entity) with
    | none => rfl
    | some e => rfl
  have hfrom : F2 = F1.map (fun i => i + de) := by
    rw [← hF1, ← hF2, lookupName_shiftMap]
    cases hf : lookupName m rel.from_entity with
    | none =>
      simp only [Option.map_none']
      rw [hc1 _ hf, hc2 _ hf]
      rfl
    | some i =>
      simp only [Option.map_some']
  have hto : T2 = T1.map (fun i => i + de) := by
    rw [← hT1, ← hT2, lookupName_shiftMap]
    cases ht : lookupName m rel.to_entity with
    | none =>
      simp only [Option.map_none']
      rw [hc1 _ ht, hc2 _ ht]
      simp only [Option.map_none']
      exact hfindshift
    | some i =>
      simp only [Option.map_some']
  have hF1pos : ∀ i, F1 = some i → 1 ≤ i := by
    intro i hi
    rw [← hF1] at hi
    cases hf : lookupName m rel.from_entity with
    | some j =>
      rw [hf] at hi
      simp only [Option.some.injEq] at hi
      subst hi
      obtain ⟨p, hp, hpi⟩ := lookupName_mem hf
      exact hpi ▸ hmpos p hp
    | none =>
      rw [hf, hc1 _ hf] at hi
      simp at hi
  have hT1pos : ∀ i, T1 = some i → 1 ≤ i := by
    intro i hi
    rw [← hT1] at hi
    cases ht : lookupName m rel.to_entity with
    | some j =>
      rw [ht] at hi
      simp only [Option.some.injEq] at hi
      subst hi
      obtain ⟨p, hp, hpi⟩ := lookupName_mem ht
      exact hpi ▸ hmpos p hp
    | none =>
      rw [ht, hc1 _ ht] at hi
      cases hdb : st.entities.find? (fun e : StoredEntity =>
          e.simple_name == lastScopeSegment rel.to_entity) with
      | none => rw [hdb] at hi; simp at hi
      | some e =>
        rw [hdb] at hi
        simp only [Option.map_some', Option.some.injEq] at hi
        subst hi
        exact hepos e (List.mem_of_find?_eq_some hdb)
  rw [hfrom, hto]
  by_cases hinc : (rel.relationship_type == "includes") = true
  · simp only [if_pos hinc]
    exact ⟨hE, hRl, hC, hne, hnr, hnc⟩
  · simp only [if_neg hinc]
    rw [pyTruthy_shift de F1 hF1pos, pyTruthy_shift de T1 hT1pos]
    by_cases htr : (pyTruthy F1 && pyTruthy T1) = true
    · simp only [if_pos htr]
      rw [Bool.and_eq_true] at htr
      obtain ⟨htf, htt⟩ := htr
      cases F1 with
      | none => simp [pyTruthy] at htf
      | some i =>
        cases T1 with
        | none => simp [pyTruthy] at htt
        | some j =>
          refine ⟨hE, ?_, hC, hne, ?_, hnc⟩
          · simp only [Option.map_some', Option.getD_some]
            rw [hRl, hnr]
            simp only [List.map_append]
            rfl
          · simp only
            omega
    · simp only [if_neg htr]
      exact ⟨hE, hRl, hC, hne, hnr, hnc⟩

theorem insertRelationshipsLoop_shift (de dr dc : Nat)
    (m c1 c2 : List (String × Nat))
    (hc1 : ∀ k, lookupName m k = none → lookupName c1 k = none)
    (hc2 : ∀ k, lookupName m k = none → lookupName c2 k = none)
    (hmpos : ∀ p ∈ m, 1 ≤ p.2) :
    ∀ (rs : List Relationship) (st st2 : Store),
      shiftedData de dr dc st st2 →
      (∀ e ∈ st.entities, 1 ≤ e.id) →
      shiftedData de dr dc (insertRelationshipsLoop st m c1 rs)
        (insertRelationshipsLoop st2 (shiftMap de m) c2 rs) := by
  intro rs
  induction rs with
  | nil => intro st st2 hR hepos; exact hR
  | cons r rest ih =>
    intro st st2 hR hepos
    rw [insertRelationshipsLoop, insertRelationshipsLoop]
    apply ih
    · exact insert_relationship_shift de dr dc st st2 m c1 c2 r hR hc1 hc2 hmpos hepos
    · intro e he
      rw [(insert_relationship_frame st r m c1).1] at he
      exact hepos e he

theorem insert_chunk_shift (de dr dc : Nat) (st st2 : Store)
    (m : List (String × Nat)) (ch : CodeChunk) (fid : Nat)
    (embed : String → Except Unit (List Int)) (v : List Int)
    (hemb : embed ch.content = .ok v)
    (hR : shiftedData de dr dc st st2) :
    ∃ s1 s2, insert_chunk embed st ch m fid = .ok s1 ∧
      insert_chunk embed st2 ch (shiftMap de m) fid = .ok s2 ∧
      shiftedData de dr dc s1 s2 := by
  obtain ⟨hE, hRl, hC, hne, hnr, hnc⟩ := hR
  unfold insert_chunk
  rw [hemb]
  refine ⟨_, _, rfl, rfl, ?_⟩
  have hid : (match ch.entity_name with
      | some nm => if nm == "" then none else lookupName (shiftMap de m) nm
      | none => none) =
      ((match ch.entity_name with
        | some nm => if nm == "" then none else lookupName m nm
        | none => none) : Option Nat).map (fun i => i + de) := by
    cases ch.entity_name with
    | none => rfl
    | some nm =>
      by_cases hnm : (nm == "") = true
      · simp only [if_pos hnm]
        rfl
      · simp only [if_neg hnm]
        rw [lookupName_shiftMap]
  refine ⟨hE, hRl, ?_, hne, hnr, ?_⟩
  · simp only
    rw [hC, hnc, hid]
    simp only [List.map_append]
    rfl
  · simp only
    omega

theorem insertChunksLoop_shift (de dr dc : Nat) (m : List (String × Nat)) (fid : Nat)
    (embed : String → Except Unit (List Int)) (htot : ∀ s, (embed s).isOk = true) :
    ∀ (cs : List CodeChunk) (st st2 : Store),
      shiftedData de dr dc st st2 →
      ∃ s1 s2, insertChunksLoop embed st m fid cs = .ok s1 ∧
        insertChunksLoop embed st2 (shiftMap de m) fid cs = .ok s2 ∧
        shiftedData de dr dc s1 s2 := by
  intro cs
  induction cs with
  | nil =>
    intro st st2 hR
    exact ⟨st, st2, rfl, rfl, hR⟩
  | cons ch rest ih =>
    intro st st2 hR
    cases hemb : embed ch.content with
    | error e =>
      have := htot ch.content
      rw [hemb] at this
      simp [Except.isOk, Except.toBool] at this
    | ok v =>
      obtain ⟨s1, s2, h1, h2, hR1⟩ := insert_chunk_shift de dr dc st st2 m ch fid embed v hemb hR
      obtain ⟨t1, t2, g1, g2, hR2⟩ := ih s1 s2 hR1
      refine ⟨t1, t2, ?_, ?_, hR2⟩
      · rw [insertChunksLoop, h1]
        exact g1
      · rw [insertChunksLoop, h2]
        exact g2

theorem insertChunksLoop_linked (embed : String → Except Unit (List Int))
    (m : List (String × Nat)) (fid : Nat) :
    ∀ (cs : List CodeChunk) (st st5 : Store),
      insertChunksLoop embed st m fid cs = .ok st5 →
      (∀ ch ∈ cs, ∃ nm, ch.entity_name = some nm ∧ (nm == "") = false ∧
        lookupName m nm ≠ none) →
      ∀ c2 ∈ st5.chunks, c2 ∈ st.chunks ∨
        ∃ i, c2.entity_id = some i ∧ ∃ p ∈ m, p.2 = i := by
  intro cs
  induction cs with
  | nil =>
    intro st st5 h hlink c2 hc2
    rw [insertChunksLoop] at h
    simp only [Except.ok.injEq] at h
    subst h
    exact Or.inl hc2
  | cons ch rest ih =>
    intro st st5 h hlink c2 hc2
    rw [insertChunksLoop] at h
    cases hc : insert_chunk embed st ch m fid with
    | error e => rw [hc] at h; simp at h
    | ok st1 =>
      rw [hc] at h
      rcases ih st1 st5 h (fun ch2 hch2 => hlink ch2 (List.mem_cons_of_mem ch hch2)) c2 hc2 with
        hold | hnew
      · -- c2 came from st1: either an st chunk or the fresh row
        unfold insert_chunk at hc
        cases hemb : embed ch.content with
        | error e => rw [hemb] at hc; simp at hc
        | ok v =>
          rw [hemb] at hc
          simp only [Except.ok.injEq] at hc
          subst hc
          simp only [List.mem_append, List.mem_singleton] at hold
          rcases hold with hold | hold
          · exact Or.inl hold
          · right
            obtain ⟨nm, hnm, hne, hlk⟩ := hlink ch (List.mem_cons_self ch rest)
            cases hlu : lookupName m nm with
            | none => exact absurd hlu hlk
            | some i =>
              refine ⟨i, ?_, lookupName_mem hlu⟩
              subst hold
              simp only
              rw [hnm]
              simp only [hne]
              rw [if_neg (by simp [hne])]
              exact hlu
      · exact Or.inr hnew

theorem entityView_shift (de dr dc : Nat) (st st2 : Store)
    (hE : st2.entities = st.entities.map (shiftEntity de)) (e : StoredEntity) :
    entityView st2 (shiftEntity de e) = entityView st e := by
  unfold entityView
  have hdata : entityData (shiftEntity de e) = entityData e := rfl
  rw [hdata]
  have hpar : (shiftEntity de e).parent_id.bind (entityName st2) =
      e.parent_id.bind (entityName st) := by
    cases hp : e.parent_id with
    | none => simp [shiftEntity, hp]
    | some pid =>
      simp only [shiftEntity, hp, Option.map_some', Option.some_bind]
      exact entityName_shift de st.entities st2.entities st st2 rfl rfl hE pid
  rw [hpar]

theorem storeView_shift (de dr dc : Nat) (st st2 : Store) (fid : Nat)
    (hR : shiftedData de dr dc st st2) :
    storeView st2 fid = storeView st fid := by
  obtain ⟨hE, hRl, hC, hne, hnr, hnc⟩ := hR
  unfold storeView
  refine congrArg₂ Prod.mk ?_ (congrArg₂ Prod.mk ?_ ?_)
  · rw [hE, List.filter_map]
    have hpred : ((fun e : StoredEntity => e.file_id == fid) ∘ shiftEntity de) =
        (fun e : StoredEntity => e.file_id == fid) := by
      funext e
      rfl
    rw [hpred, List.map_map]
    apply List.map_congr_left
    intro e he
    exact entityView_shift de dr dc st st2 hE e
  · rw [hRl, List.map_map]
    apply List.map_congr_left
    intro r hr
    simp only [Function.comp]
    unfold relView
    have hfromn : entityName st2 (shiftRel de dr r).from_entity_id =
        entityName st r.from_entity_id := by
      have : (shiftRel de dr r).from_entity_id = r.from_entity_id + de := rfl
      rw [this]
      exact entityName_shift de st.entities st2.entities st st2 rfl rfl hE _
    have hton : entityName st2 (shiftRel de dr r).to_entity_id =
        entityName st r.to_entity_id := by
      have : (shiftRel de dr r).to_entity_id = r.to_entity_id + de := rfl
      rw [this]
      exact entityName_shift de st.entities st2.entities st st2 rfl rfl hE _
    rw [hfromn, hton]
    cases entityName st r.from_entity_id with
    | none => rfl
    | some a =>
      cases entityName st r.to_entity_id with
      | none => rfl
      | some b => rfl
  · rw [hC, List.filter_map]
    have hpred : ((fun c : StoredChunk => c.file_id == fid) ∘ shiftChunk de dc) =
        (fun c : StoredChunk => c.file_id == fid) := by
      funext c
      rfl
    rw [hpred, List.map_map]
    apply List.map_congr_left
    intro c hc
    simp only [Function.comp]
    unfold chunkView
    have hent : (shiftChunk de dc c).entity_id.bind (entityName st2) =
        c.entity_id.bind (entityName st) := by
      cases hp : c.entity_id with
      | none => simp [shiftChunk, hp]
      | some eid =>
        simp only [shiftChunk, hp, Option.map_some', Option.some_bind]
        exact entityName_shift de st.entities st2.entities st st2 rfl rfl hE eid
    rw [hent]
    rfl

theorem lookupName_eq_none_iff (m : List (String × Nat)) (k : String) :
    lookupName m k = none ↔ ∀ p ∈ m, (p.1 == k) = false := by
  unfold lookupName
  rw [Option.map_eq_none', List.find?_eq_none]
  constructor
  · intro h p hp
    have := h p hp
    cases hh : (p.1 == k) <;> simp_all
  · intro h p hp
    rw [h p hp]
    simp

theorem namePairs_key_of_mem :
    ∀ (es : List Entity) (s : Nat) (p : String × Nat),
      p ∈ namePairs s es → ∃ e ∈ es, p.1 = e.qualified_name := by
  intro es
  induction es with
  | nil => intro s p hp; simp [namePairs] at hp
  | cons e rest ih =>
    intro s p hp
    rw [namePairs] at hp
    rcases List.mem_cons.mp hp with h | h
    · exact ⟨e, List.mem_cons_self e rest, by rw [h]⟩
    · obtain ⟨e2, he2, hk⟩ := ih (s + 1) p h
      exact ⟨e2, List.mem_cons_of_mem e he2, hk⟩

theorem mem_namePairs_of :
    ∀ (es : List Entity) (s : Nat) (e : Entity), e ∈ es →
      ∃ i, (e.qualified_name, i) ∈ namePairs s es := by
  intro es
  induction es with
  | nil => intro s e he; simp at he
  | cons e0 rest ih =>
    intro s e he
    rcases List.mem_cons.mp he with h | h
    · subst h
      exact ⟨s, by rw [namePairs]; exact List.mem_cons_self _ _⟩
    · obtain ⟨i, hi⟩ := ih (s + 1) e h
      exact ⟨i, by rw [namePairs]; exact List.mem_cons_of_mem _ hi⟩

theorem namePairs_val_ge :
    ∀ (es : List Entity) (s : Nat) (p : String × Nat), p ∈ namePairs s es → s ≤ p.2 := by
  intro es
  induction es with
  | nil => intro s p hp; simp [namePairs] at hp
  | cons e rest ih =>
    intro s p hp
    rw [namePairs] at hp
    rcases List.mem_cons.mp hp with h | h
    · rw [h]
    · have := ih (s + 1) p h
      omega

theorem deleteFileEntities_empty (fid : Nat) : deleteFileEntities emptyStore fid = emptyStore := by
  rfl

theorem index_file_ok_eq (embed : String → Except Unit (List Int))
    (htot : ∀ s, (embed s).isOk = true) (fid : Nat) (content : String)
    (es : List Entity) (rs : List Relationship) (cs : List CodeChunk)
    (st : Store) (cache : List (String × Nat)) :
    ∃ st5, insertChunksLoop embed
        (insertRelationshipsLoop
          (resolveParentsLoop (insertEntitiesLoop (deleteFileEntities st fid) fid [] cache es).1
            (insertEntitiesLoop (deleteFileEntities st fid) fid [] cache es).2.1 es)
          (insertEntitiesLoop (deleteFileEntities st fid) fid [] cache es).2.1
          (insertEntitiesLoop (deleteFileEntities st fid) fid [] cache es).2.2 rs)
        (insertEntitiesLoop (deleteFileEntities st fid) fid [] cache es).2.1 fid cs = .ok st5 ∧
      index_file embed (.ok (es, rs, cs)) fid content st cache =
        (updateFileStatus st5 fid,
          (insertEntitiesLoop (deleteFileEntities st fid) fid [] cache es).2.2) := by
  obtain ⟨st5, hok⟩ := insertChunksLoop_ok_of_embed_total embed
    (insertEntitiesLoop (deleteFileEntities st fid) fid [] cache es).2.1 fid htot cs
    (insertRelationshipsLoop
      (resolveParentsLoop (insertEntitiesLoop (deleteFileEntities st fid) fid [] cache es).1
        (insertEntitiesLoop (deleteFileEntities st fid) fid [] cache es).2.1 es)
      (insertEntitiesLoop (deleteFileEntities st fid) fid [] cache es).2.1
      (insertEntitiesLoop (deleteFileEntities st fid) fid [] cache es).2.2 rs)
  refine ⟨st5, hok, ?_⟩
  rw [index_file, hok]

/-- C5 amended: on the parse-success path (no parse failure), with all
embeddings succeeding and every parsed chunk linked to some parsed entity by
a nonempty name, indexing from an empty store and re-indexing the identical
content leaves the identical id-insensitive entity/relationship/chunk set
for the file (the second run's rows are uniform id-shifts of the first
run's).  The parse-failure fallback path is not idempotent (see the
counterexample), and an unlinked chunk would survive the cascade delete and
duplicate. -/
theorem c5_amended (embed : String → Except Unit (List Int)) (fid : Nat) (content : String)
    (es : List Entity) (rs : List Relationship) (cs : List CodeChunk)
    (htot : ∀ s, (embed s).isOk = true)
    (hlink : ∀ ch ∈ cs, ∃ nm, ch.entity_name = some nm ∧ (nm == "") = false ∧
      ∃ e ∈ es, e.qualified_name = nm) :
    c5ClaimAt embed (.ok (es, rs, cs)) fid content := by
  show storeView (index_file embed (.ok (es, rs, cs)) fid content
      (index_file embed (.ok (es, rs, cs)) fid content emptyStore []).1
      (index_file embed (.ok (es, rs, cs)) fid content emptyStore []).2).1 fid =
    storeView (index_file embed (.ok (es, rs, cs)) fid content emptyStore []).1 fid
  obtain ⟨st5, hok1, heq1⟩ := index_file_ok_eq embed htot fid content es rs cs emptyStore []
  rw [deleteFileEntities_empty] at hok1 heq1
  rw [heq1]
  dsimp only
  obtain ⟨st5x, hok2, heq2⟩ := index_file_ok_eq embed htot fid content es rs cs
    (updateFileStatus st5 fid) ((insertEntitiesLoop emptyStore fid [] [] es).2.2)
  rw [heq2]
  dsimp only
  -- run-1 phase analysis
  obtain ⟨h1, h2, h3, h4, h5, h6, h7, h8, h9⟩ := insertEntitiesLoop_spec fid es emptyStore [] []
  generalize hr0 : insertEntitiesLoop emptyStore fid [] [] es = r0 at *
  have h1e : r0.1.entities = newStored 1 fid es := by rw [h1]; rfl
  have h2e : r0.1.nextEntityId = 1 + es.length := by rw [h2]; rfl
  have h3e : r0.1.relationships = [] := by rw [h3]; rfl
  have h4e : r0.1.chunks = [] := by rw [h4]; rfl
  have h6e : r0.1.nextRelationshipId = 1 := by rw [h6]; rfl
  have h7e : r0.1.nextChunkId = 1 := by rw [h7]; rfl
  have hm1 : r0.2.1 = (namePairs 1 es).reverse := by rw [h8, List.append_nil]; rfl
  have hc1v : r0.2.2 = (namePairs 1 es).reverse := by rw [h9, List.append_nil]; rfl
  obtain ⟨p1, p2, p3, p4, p5, p6, p7⟩ := resolveParentsLoop_spec r0.2.1 es r0.1
  generalize hst3 : resolveParentsLoop r0.1 r0.2.1 es = st3 at *
  have hframe4 := insertRelationshipsLoop_frame r0.2.1 r0.2.2 rs st3
  have hendp4 := insertRelationshipsLoop_endpoints r0.2.1 r0.2.2 rs st3
  have hrelmono := insertRelationshipsLoop_counter_mono r0.2.1 r0.2.2 rs st3
  generalize hst4 : insertRelationshipsLoop st3 r0.2.1 r0.2.2 rs = st4 at *
  obtain ⟨d1, d2, d3, d4, d5, d6⟩ := insertChunksLoop_ok embed r0.2.1 fid cs st4 st5 hok1
  have hchmono := insertChunksLoop_counter_mono embed r0.2.1 fid cs st4 st5 hok1
  have hlinkmap : ∀ ch ∈ cs, ∃ nm, ch.entity_name = some nm ∧ (nm == "") = false ∧
      lookupName r0.2.1 nm ≠ none := by
    intro ch hch
    obtain ⟨nm, hnm, hne2, e, he, hq⟩ := hlink ch hch
    refine ⟨nm, hnm, hne2, ?_⟩
    obtain ⟨i, hi⟩ := mem_namePairs_of es 1 e he
    intro hnone
    rw [lookupName_eq_none_iff] at hnone
    have hmem : (e.qualified_name, i) ∈ r0.2.1 := by
      rw [hm1, List.mem_reverse]
      exact hi
    have := hnone _ hmem
    simp [hq] at this
  have hlinked := insertChunksLoop_linked embed r0.2.1 fid cs st4 st5 hok1 hlinkmap
  have huf := updateFileStatus_frame st5 fid
  have hst4chunks : st4.chunks = [] := by rw [hframe4.2.1, p2, h4e]
  have hents1 : (updateFileStatus st5 fid).entities.map (fun e => (e.id, entityData e)) =
      (newStored 1 fid es).map (fun e => (e.id, entityData e)) := by
    rw [huf.1, d1, hframe4.1, p7, h1e]
  have hallfid : ∀ e ∈ (updateFileStatus st5 fid).entities,
      e.file_id = fid ∧ 1 ≤ e.id := by
    intro e he
    have hmm : (e.id, entityData e) ∈ (newStored 1 fid es).map (fun e => (e.id, entityData e)) := by
      rw [← hents1]
      exact List.mem_map_of_mem _ he
    simp only [List.mem_map] at hmm
    obtain ⟨e0, he0, heq0⟩ := hmm
    have hf0 := (newStored_facts fid es 1).1 e0 he0
    have hid0 : e0.id = e.id := by
      have := congrArg Prod.fst heq0
      simpa using this
    have hfd0 : e0.file_id = e.file_id := by
      have := congrArg (fun q => q.2.file_id) heq0
      simpa [entityData] using this
    have hfile0 : e0.file_id = fid := by
      have := hf0.2
      simpa [entityData] using this
    exact ⟨by rw [← hfd0, hfile0], by omega⟩
  have hids1 : (updateFileStatus st5 fid).entities.map (fun e => e.id) =
      (newStored 1 fid es).map (fun e => e.id) := by
    have := congrArg (List.map Prod.fst) hents1
    simpa [List.map_map, Function.comp] using this
  have hst3ids : ∀ i, entityIdPresent st3 i → i ∈ (newStored 1 fid es).map (fun e => e.id) := by
    intro i hi
    rw [entityIdPresent_iff_mem_map] at hi
    have hmapeq : st3.entities.map (fun e => e.id) = (newStored 1 fid es).map (fun e => e.id) := by
      have := congrArg (List.map Prod.fst) p7
      rw [h1e] at this
      simpa [List.map_map, Function.comp] using this
    rw [hmapeq] at hi
    exact hi
  have hpairmem : ∀ i, ((∃ p ∈ r0.2.1, p.2 = i) ∨ (∃ p ∈ r0.2.2, p.2 = i)) →
      i ∈ (newStored 1 fid es).map (fun e => e.id) := by
    intro i hi
    have hconv : ∃ p ∈ namePairs 1 es, p.2 = i := by
      rcases hi with ⟨p, hp, hpi⟩ | ⟨p, hp, hpi⟩
      · rw [hm1, List.mem_reverse] at hp
        exact ⟨p, hp, hpi⟩
      · rw [hc1v, List.mem_reverse] at hp
        exact ⟨p, hp, hpi⟩
    obtain ⟨p, hp, hpi⟩ := hconv
    obtain ⟨e2, he2, hide⟩ := namePairs_ids fid es 1 p hp
    exact List.mem_map.mpr ⟨e2, he2, by omega⟩
  have hrels1 : (updateFileStatus st5 fid).relationships = st4.relationships := by
    rw [huf.2.1, d2]
  have henddead : ∀ r ∈ st4.relationships,
      r.from_entity_id ∈ (newStored 1 fid es).map (fun e => e.id) ∧
      r.to_entity_id ∈ (newStored 1 fid es).map (fun e => e.id) := by
    intro r hr
    rcases hendp4 r hr with hold | ⟨hf, ht⟩
    · rw [p1, h3e] at hold
      simp at hold
    · constructor
      · exact hpairmem _ hf
      · rcases ht with h | h | h
        · exact hpairmem _ (Or.inl h)
        · exact hpairmem _ (Or.inr h)
        · exact hst3ids _ h
  have hchunkdead : ∀ c2 ∈ st5.chunks, ∃ i, c2.entity_id = some i ∧
      i ∈ (newStored 1 fid es).map (fun e => e.id) := by
    intro c2 hc2
    rcases hlinked c2 hc2 with hold | ⟨i, hic, hip⟩
    · rw [hst4chunks] at hold
      simp at hold
    · exact ⟨i, hic, hpairmem i (Or.inl hip)⟩
  -- counters of the committed run-1 store
  have hne1 : (updateFileStatus st5 fid).nextEntityId = 1 + es.length := by
    rw [huf.2.2.2.1, d4, hframe4.2.2.2.1, p4, h2e]
  have hnr1v : (updateFileStatus st5 fid).nextRelationshipId = st4.nextRelationshipId := by
    rw [huf.2.2.2.2.1, d5]
  have hnr1ge : 1 ≤ st4.nextRelationshipId := by
    have := hrelmono
    rw [p5, h6e] at this
    exact this
  have hnc1v : (updateFileStatus st5 fid).nextChunkId = st5.nextChunkId := by
    rw [huf.2.2.2.2.2]
  have hnc1ge : 1 ≤ st5.nextChunkId := by
    have h41 : st4.nextChunkId = 1 := by rw [hframe4.2.2.2.2, p6, h7e]
    omega
  -- the delete at the start of run 2 resets all data rows
  have hdelE : (deleteFileEntities (updateFileStatus st5 fid) fid).entities = [] := by
    unfold deleteFileEntities
    simp only
    rw [List.filter_eq_nil_iff]
    intro e he
    have := (hallfid e he).1
    simp [this]
  have hdeadeq : ((updateFileStatus st5 fid).entities.filter
      (fun e => e.file_id == fid)).map (fun e => e.id) =
      (newStored 1 fid es).map (fun e => e.id) := by
    have hfe : (updateFileStatus st5 fid).entities.filter (fun e => e.file_id == fid) =
        (updateFileStatus st5 fid).entities := by
      rw [List.filter_eq_self]
      intro e he
      have := (hallfid e he).1
      simp [this]
    rw [hfe, hids1]
  have hdelR : (deleteFileEntities (updateFileStatus st5 fid) fid).relationships = [] := by
    unfold deleteFileEntities
    simp only
    rw [List.filter_eq_nil_iff]
    intro r hr
    rw [hrels1] at hr
    have hd := (henddead r hr).1
    rw [← hdeadeq] at hd
    have hcont : (((updateFileStatus st5 fid).entities.filter
        (fun e => e.file_id == fid)).map (fun e => e.id)).contains r.from_entity_id = true := by
      rw [List.contains_eq_any_beq]
      rw [List.any_eq_true]
      exact ⟨r.from_entity_id, hd, by simp⟩
    intro hcontra
    rw [Bool.and_eq_true] at hcontra
    have h1c := hcontra.1
    rw [Bool.not_eq_true'] at h1c
    rw [hcont] at h1c
    exact absurd h1c (by simp)
  have hdelC : (deleteFileEntities (updateFileStatus st5 fid) fid).chunks = [] := by
    unfold deleteFileEntities
    simp only
    rw [List.filter_eq_nil_iff]
    intro c2 hc2
    rw [huf.2.2.1] at hc2
    obtain ⟨i, hic, hid⟩ := hchunkdead c2 hc2
    rw [← hdeadeq] at hid
    have hcont : (((updateFileStatus st5 fid).entities.filter
        (fun e => e.file_id == fid)).map (fun e => e.id)).contains i = true := by
      rw [List.contains_eq_any_beq, List.any_eq_true]
      exact ⟨i, hid, by simp⟩
    intro hcontra
    rw [hic] at hcontra
    simp only [Bool.not_eq_true'] at hcontra
    rw [hcont] at hcontra
    exact absurd hcontra (by simp)
  have hdelNE : (deleteFileEntities (updateFileStatus st5 fid) fid).nextEntityId =
      1 + es.length := by
    have : (deleteFileEntities (updateFileStatus st5 fid) fid).nextEntityId =
        (updateFileStatus st5 fid).nextEntityId := rfl
    rw [this, hne1]
  have hdelNR : (deleteFileEntities (updateFileStatus st5 fid) fid).nextRelationshipId =
      st4.nextRelationshipId := by
    have : (deleteFileEntities (updateFileStatus st5 fid) fid).nextRelationshipId =
        (updateFileStatus st5 fid).nextRelationshipId := rfl
    rw [this, hnr1v]
  have hdelNC : (deleteFileEntities (updateFileStatus st5 fid) fid).nextChunkId =
      st5.nextChunkId := by
    have : (deleteFileEntities (updateFileStatus st5 fid) fid).nextChunkId =
        (updateFileStatus st5 fid).nextChunkId := rfl
    rw [this, hnc1v]
  -- run-2 phase analysis
  obtain ⟨g1, g2, g3, g4, g5, g6, g7, g8, g9⟩ := insertEntitiesLoop_spec fid es
    (deleteFileEntities (updateFileStatus st5 fid) fid) [] r0.2.2
  generalize hr0x : insertEntitiesLoop (deleteFileEntities (updateFileStatus st5 fid) fid)
    fid [] r0.2.2 es = r0x at *
  obtain ⟨q1, q2, q3, q4, q5, q6, q7⟩ := resolveParentsLoop_spec r0x.2.1 es r0x.1
  generalize hst3x : resolveParentsLoop r0x.1 r0x.2.1 es = st3x at *
  have hframe4x := insertRelationshipsLoop_frame r0x.2.1 r0x.2.2 rs st3x
  generalize hst4x : insertRelationshipsLoop st3x r0x.2.1 r0x.2.2 rs = st4x at *
  -- run-2 entity phase in shifted form
  have g1e : r0x.1.entities = (newStored 1 fid es).map (shiftEntity es.length) := by
    rw [g1, hdelE, hdelNE, List.nil_append]
    exact newStored_shift es.length fid es 1
  have gm2 : r0x.2.1 = shiftMap es.length ((namePairs 1 es).reverse) := by
    rw [g8, List.append_nil, hdelNE, namePairs_shift es.length es 1]
    unfold shiftMap
    rw [List.map_reverse]
  have gc2 : r0x.2.2 = shiftMap es.length ((namePairs 1 es).reverse) ++
      (namePairs 1 es).reverse := by
    rw [g9, hdelNE, namePairs_shift es.length es 1, hc1v]
    unfold shiftMap
    rw [List.map_reverse]
  rw [hm1] at hst3
  rw [gm2] at hst3x
  rw [hm1, hc1v] at hst4
  rw [gm2, gc2] at hst4x
  rw [hm1] at hok1
  rw [gm2] at hok2
  -- the simulation between the two runs, phase by phase
  have hsd3 : shiftedData es.length (st4.nextRelationshipId - 1) (st5.nextChunkId - 1)
      st3 st3x := by
    refine ⟨?_, ?_, ?_, ?_, ?_, ?_⟩
    · have hkey := resolveParentsLoop_shift es.length ((namePairs 1 es).reverse) es r0.1 r0x.1
        (by rw [g1e, h1e])
      rw [hst3x, hst3] at hkey
      exact hkey
    · rw [q1, g3, hdelR, p1, h3e]
      rfl
    · rw [q2, g4, hdelC, p2, h4e]
      rfl
    · rw [q4, g2, hdelNE, p4, h2e]
    · rw [q5, g6, hdelNR, p5, h6e]
      omega
    · rw [q6, g7, hdelNC, p6, h7e]
      omega
  have hepos3 : ∀ e ∈ st3.entities, 1 ≤ e.id := by
    intro e he
    have hmm : (e.id, entityData e) ∈ (newStored 1 fid es).map (fun e => (e.id, entityData e)) := by
      rw [← h1e, ← p7]
      exact List.mem_map_of_mem _ he
    simp only [List.mem_map] at hmm
    obtain ⟨e0, he0, heq0⟩ := hmm
    have hge := (newStored_facts fid es 1).1 e0 he0
    have hid0 : e0.id = e.id := by
      have := congrArg Prod.fst heq0
      simpa using this
    omega
  have hmpos : ∀ p ∈ (namePairs 1 es).reverse, 1 ≤ p.2 := by
    intro p hp
    rw [List.mem_reverse] at hp
    exact namePairs_val_ge es 1 p hp
  have hc2none : ∀ k, lookupName ((namePairs 1 es).reverse) k = none →
      lookupName (shiftMap es.length ((namePairs 1 es).reverse) ++
        (namePairs 1 es).reverse) k = none := by
    intro k h
    rw [lookupName_eq_none_iff] at h ⊢
    intro p hp
    rcases List.mem_append.mp hp with hp | hp
    · unfold shiftMap at hp
      rw [List.mem_map] at hp
      obtain ⟨q, hq, hqe⟩ := hp
      rw [← hqe]
      exact h q hq
    · exact h p hp
  have hsd4 : shiftedData es.length (st4.nextRelationshipId - 1) (st5.nextChunkId - 1)
      st4 st4x := by
    have hx := insertRelationshipsLoop_shift es.length (st4.nextRelationshipId - 1)
      (st5.nextChunkId - 1) ((namePairs 1 es).reverse) ((namePairs 1 es).reverse)
      (shiftMap es.length ((namePairs 1 es).reverse) ++ (namePairs 1 es).reverse)
      (fun k h => h) hc2none hmpos rs st3 st3x hsd3 hepos3
    rw [hst4, hst4x] at hx
    exact hx
  obtain ⟨s1, s2, k1, k2, hsd5⟩ := insertChunksLoop_shift es.length
    (st4.nextRelationshipId - 1) (st5.nextChunkId - 1) ((namePairs 1 es).reverse)
    fid embed htot cs st4 st4x hsd4
  rw [hok1] at k1
  rw [hok2] at k2
  have hs1 : st5 = s1 := by simpa using k1
  have hs2 : st5x = s2 := by simpa using k2
  subst hs1
  subst hs2
  have hufx := updateFileStatus_frame st5x fid
  have hufo := updateFileStatus_frame st5 fid
  have hsdfin : shiftedData es.length (st4.nextRelationshipId - 1) (st5.nextChunkId - 1)
      (updateFileStatus st5 fid) (updateFileStatus st5x fid) := by
    obtain ⟨a1, a2, a3, a4, a5, a6⟩ := hsd5
    exact ⟨by rw [hufo.1, hufx.1]; exact a1,
      by rw [hufo.2.1, hufx.2.1]; exact a2,
      by rw [hufo.2.2.1, hufx.2.2.1]; exact a3,
      by rw [hufo.2.2.2.1, hufx.2.2.2.1]; exact a4,
      by rw [hufo.2.2.2.2.1, hufx.2.2.2.2.1]; exact a5,
      by rw [hufo.2.2.2.2.2, hufx.2.2.2.2.2]; exact a6⟩
  exact storeView_shift es.length (st4.nextRelationshipId - 1) (st5.nextChunkId - 1)
    (updateFileStatus st5 fid) (updateFileStatus st5x fid) fid hsdfin

theorem c5_witness :
    c5ClaimAt embed1
      (.ok ([⟨"class", "B", "A::B", "class B", 1, 2, true, none, 0, []⟩], [],
        [⟨some "A::B", "code", "class B", 1, 2, ChunkMeta.empty⟩])) 7 "x" := by
  apply c5_amended
  · intro s
    rfl
  · intro ch hch
    refine ⟨"A::B", ?_, ?_, ?_⟩
    · rcases List.mem_singleton.mp hch with h
      rw [h]
    · decide
    · refine ⟨⟨"class", "B", "A::B", "class B", 1, 2, true, none, 0, []⟩,
        List.mem_singleton.mpr rfl, rfl⟩
